import Mathlib

/-!
A shallow embedding of the priority-graph transaction scheduler from
`core/src/banking_stage/transaction_scheduler/prio_graph_scheduler.rs`,
together with models of its helper components (thread set, thread-aware
account locks, in-flight tracker, read-write account set, priority graph,
state container), which are taken from the specification because those
source files are not part of the sources here.  Machine integers (`u64`,
`usize`) are modelled as `Nat`; `saturating_add_assign!` on `u64` agrees
with `Nat` addition below `2 ^ 64` and is modelled as plain addition.
Rust panics are modelled as the `RunError.panicked` branch of an `Except`
result, and the wall-clock `measure_us` filter timing is modelled as the
constant `0`.
-/

set_option autoImplicit false

namespace Scheduler

/-! Basic identifiers of the data model (spec section 3). -/

abbrev Pubkey := Nat
abbrev TransactionId := Nat
abbrev ThreadId := Nat

/-- Pair `(priority, id)`; the total order used by the priority graph and
the container is priority descending, id ascending. -/
structure TransactionPriorityId where
  priority : Nat
  id : TransactionId
deriving DecidableEq, Repr

/-- Strict order by priority descending, id ascending, as a `Bool`. -/
def tpBefore (a b : TransactionPriorityId) : Bool :=
  decide (b.priority < a.priority) ||
    (decide (a.priority = b.priority) && decide (a.id < b.id))

/-- Insertion into a list sorted by `tpBefore`. -/
def insertByPriority (x : TransactionPriorityId) :
    List TransactionPriorityId → List TransactionPriorityId
  | [] => [x]
  | y :: ys => if tpBefore x y then x :: y :: ys else y :: insertByPriority x ys

/-- An opaque transaction payload: the scheduler only observes the account
key list and the per-index writable flag (`TransactionWithMeta`). -/
structure Tx where
  accountKeys : List Pubkey
  writableFlags : List Bool
deriving DecidableEq, Repr

/-- Rust `transaction.is_writable(index)`. -/
def Tx.isWritable (tx : Tx) (index : Nat) : Bool :=
  tx.writableFlags.getD index false

/-- Accounts of `tx` taken with write access, in index order: the iterator
`account_keys().iter().enumerate().filter_map(|(i, k)| is_writable(i).then_some(k))`. -/
def writeAccountLocks (tx : Tx) : List Pubkey :=
  (tx.accountKeys.enum.filter fun p => tx.isWritable p.1).map (·.2)

/-- Accounts of `tx` taken with read access, in index order. -/
def readAccountLocks (tx : Tx) : List Pubkey :=
  (tx.accountKeys.enum.filter fun p => !tx.isWritable p.1).map (·.2)

/-- Transaction payload plus its age bound, `SanitizedTransactionTTL`. -/
structure SanitizedTransactionTTL where
  transaction : Tx
  maxAge : Nat
deriving DecidableEq, Repr

/-- Modelled from the spec: `TransactionState` (section 3) is one of
pending-in-container (holding the payload) or scheduled-in-flight; the
source file `transaction_state.rs` is not among the sources.  Priority and
cost are retained across the states. -/
inductive TxStatus
  | pendingInContainer (ttl : SanitizedTransactionTTL)
  | scheduledInFlight
deriving DecidableEq, Repr

structure TransactionState where
  priority : Nat
  cost : Nat
  status : TxStatus
deriving DecidableEq, Repr

/-- Rust `transaction_ttl()`: borrows the payload, panicking (here `none`)
when the transaction is already in flight. -/
def TransactionState.transactionTTL (s : TransactionState) :
    Option SanitizedTransactionTTL :=
  match s.status with
  | .pendingInContainer ttl => some ttl
  | .scheduledInFlight => none

/-- Rust `transition_to_pending()`: takes the payload out and marks the
transaction in flight, panicking (here `none`) when already in flight. -/
def TransactionState.transitionToPending (s : TransactionState) :
    Option (SanitizedTransactionTTL × TransactionState) :=
  match s.status with
  | .pendingInContainer ttl => some (ttl, { s with status := .scheduledInFlight })
  | .scheduledInFlight => none

/-! Error kinds (`scheduler_error.rs` is not among the sources; the two
variants are taken from the spec, section 7).  `RunError` additionally
captures Rust panics of the translated code. -/

inductive SchedulerError
  | DisconnectedSendChannel (name : String)
  | DisconnectedRecvChannel (name : String)
deriving DecidableEq, Repr

inductive RunError
  | panicked (msg : String)
  | failed (e : SchedulerError)
deriving DecidableEq, Repr

/-! Association-list helpers used by the modelled components. -/

/-- Lookup in an association list. -/
def alGet {κ α : Type} [DecidableEq κ] (l : List (κ × α)) (k : κ) : Option α :=
  (l.find? fun p => decide (p.1 = k)).map (·.2)

/-- Remove every binding of a key. -/
def alErase {κ α : Type} [DecidableEq κ] (l : List (κ × α)) (k : κ) : List (κ × α) :=
  l.filter fun p => decide (p.1 ≠ k)

/-- Replace (or add) the binding of a key. -/
def alSet {κ α : Type} [DecidableEq κ] (l : List (κ × α)) (k : κ) (v : α) :
    List (κ × α) :=
  alErase l k ++ [(k, v)]

/-- Apply a function to the value bound to a key, when present. -/
def alModify {κ α : Type} [DecidableEq κ] (l : List (κ × α)) (k : κ) (f : α → α) :
    List (κ × α) :=
  l.map fun p => if p.1 = k then (p.1, f p.2) else p

/-- Modify the element at an index of a list, when in range. -/
def modifyAt {α : Type} (f : α → α) : Nat → List α → List α
  | _, [] => []
  | 0, x :: xs => f x :: xs
  | n + 1, x :: xs => x :: modifyAt f n xs

/-! Modelled from the spec: `ThreadSet` (section 4.1), a compact bitset
over worker-thread indices; the source file `thread_aware_account_locks.rs`
is not among the sources.  It is modelled as a finite set of thread ids. -/

abbrev ThreadSet := Finset Nat

/-- Rust `ThreadSet::any(n)`: all of `0..n`. -/
def ThreadSet.any (n : Nat) : ThreadSet := Finset.range n

/-- Ascending iteration order of `contained_threads_iter`: the members
listed in increasing order (computed by filtering an enclosing range). -/
def ThreadSet.toAscList (s : ThreadSet) : List Nat :=
  (List.range (s.sup id + 1)).filter fun t => decide (t ∈ s)

/-! Modelled from the spec: `AccessKind` of the `prio_graph` crate, whose
source is likewise not among the sources. -/

inductive AccessKind
  | read
  | write
deriving DecidableEq, Repr

/-! Modelled from the spec: `ReadWriteAccountSet` (section 4.4), the
within-pass set of accounts claimed by deferred transactions; the source
file `read_write_account_set.rs` is not among the sources. -/

structure ReadWriteAccountSet where
  writeSet : Finset Pubkey
  readSet : Finset Pubkey
deriving DecidableEq

/-- Rust `ReadWriteAccountSet::default()`. -/
def ReadWriteAccountSet.empty : ReadWriteAccountSet := ⟨∅, ∅⟩

/-- Rust `check_locks(tx)`: `true` when `tx` is compatible with the claimed
set, i.e. none of its writes meets a claimed read or write and none of its
reads meets a claimed write. -/
def ReadWriteAccountSet.checkLocks (s : ReadWriteAccountSet) (tx : Tx) : Bool :=
  ((writeAccountLocks tx).all fun k =>
      decide (k ∉ s.writeSet) && decide (k ∉ s.readSet)) &&
    ((readAccountLocks tx).all fun k => decide (k ∉ s.writeSet))

/-- Rust `take_locks(tx)`: claim the writes into the write set and the
reads into the read set. -/
def ReadWriteAccountSet.takeLocks (s : ReadWriteAccountSet) (tx : Tx) :
    ReadWriteAccountSet :=
  { writeSet := s.writeSet ∪ (writeAccountLocks tx).toFinset
    readSet := s.readSet ∪ (readAccountLocks tx).toFinset }

/-! Modelled from the spec: `ThreadAwareAccountLocks` (section 4.2); the
source file `thread_aware_account_locks.rs` is not among the sources. -/

/-- The per-account lock record: the single write-holding thread with its
count, and per-thread read counts. -/
structure AccountLockEntry where
  writeLock : Option (ThreadId × Nat)
  readLocks : List (ThreadId × Nat)
deriving DecidableEq, Repr

inductive TryLockError
  | MultipleConflicts
  | ThreadNotAllowed
deriving DecidableEq, Repr

structure ThreadAwareAccountLocks where
  numThreads : Nat
  locks : List (Pubkey × AccountLockEntry)
deriving DecidableEq, Repr

/-- Feasible threads for one account under the locking invariant (spec
section 4.2 step 1): a write holder pins to its thread; with readers `R`,
a write needs `R = \x7bT\x7d` while a read must stay within `R`; an
unlocked account allows every thread. -/
def AccountLockEntry.feasibleThreads (e : AccountLockEntry) (numThreads : Nat)
    (access : AccessKind) : ThreadSet :=
  match e.writeLock with
  | some (t, _) => {t}
  | none =>
    match e.readLocks, access with
    | [], _ => ThreadSet.any numThreads
    | rs, .read => (rs.map (·.1)).toFinset
    | [(t, _)], .write => {t}
    | _ :: _ :: _, .write => ∅

/-- Feasible threads for one required access of the transaction. -/
def ThreadAwareAccountLocks.feasibleFor (tal : ThreadAwareAccountLocks)
    (k : Pubkey) (access : AccessKind) : ThreadSet :=
  match alGet tal.locks k with
  | none => ThreadSet.any tal.numThreads
  | some e => e.feasibleThreads tal.numThreads access

/-- Take one write lock for a thread on one account. -/
def AccountLockEntry.addWrite (e : AccountLockEntry) (t : ThreadId) :
    AccountLockEntry :=
  match e.writeLock with
  | some (_, c) => { e with writeLock := some (t, c + 1) }
  | none => { e with writeLock := some (t, 1) }

/-- Take one read lock for a thread on one account. -/
def AccountLockEntry.addRead (e : AccountLockEntry) (t : ThreadId) :
    AccountLockEntry :=
  match alGet e.readLocks t with
  | some c => { e with readLocks := alSet e.readLocks t (c + 1) }
  | none => { e with readLocks := alSet e.readLocks t 1 }

def ThreadAwareAccountLocks.emptyEntry : AccountLockEntry := ⟨none, []⟩

/-- Lock the given writes and reads on the selected thread. -/
def ThreadAwareAccountLocks.lockAccounts (tal : ThreadAwareAccountLocks)
    (writes reads : List Pubkey) (t : ThreadId) : ThreadAwareAccountLocks :=
  let afterWrites := writes.foldl
    (fun l k =>
      alSet l k (((alGet l k).getD ThreadAwareAccountLocks.emptyEntry).addWrite t))
    tal.locks
  let afterReads := reads.foldl
    (fun l k =>
      alSet l k (((alGet l k).getD ThreadAwareAccountLocks.emptyEntry).addRead t))
    afterWrites
  { tal with locks := afterReads }

/-- Rust `try_lock_accounts(writes, reads, allowed_threads, selector)`
(spec section 4.2): intersect the per-account feasible sets; an empty
intersection is `MultipleConflicts`, one disjoint from `allowed_threads`
is `ThreadNotAllowed`; otherwise the selector picks a thread from the
intersection restricted to `allowed_threads` and the locks are taken
there.  A selector faced with an empty set panics, which cannot happen
from this call. -/
def ThreadAwareAccountLocks.tryLockAccounts (tal : ThreadAwareAccountLocks)
    (writes reads : List Pubkey) (allowed : ThreadSet)
    (selector : ThreadSet → Option ThreadId) :
    Except RunError (Except TryLockError (ThreadId × ThreadAwareAccountLocks)) :=
  let accesses :=
    writes.map (fun k => (k, AccessKind.write)) ++
      reads.map (fun k => (k, AccessKind.read))
  let feasible := accesses.foldl
    (fun s ka => s ∩ tal.feasibleFor ka.1 ka.2) (ThreadSet.any tal.numThreads)
  if feasible = ∅ then .ok (.error .MultipleConflicts)
  else if feasible ∩ allowed = ∅ then .ok (.error .ThreadNotAllowed)
  else
    match selector (feasible ∩ allowed) with
    | none => .error (.panicked "select_thread: empty thread set")
    | some t => .ok (.ok (t, tal.lockAccounts writes reads t))

/-- Release one write lock of a thread on one account. -/
def AccountLockEntry.subWrite (e : AccountLockEntry) : AccountLockEntry :=
  match e.writeLock with
  | some (t, c) =>
    if c ≤ 1 then { e with writeLock := none }
    else { e with writeLock := some (t, c - 1) }
  | none => e

/-- Release one read lock of a thread on one account. -/
def AccountLockEntry.subRead (e : AccountLockEntry) (t : ThreadId) :
    AccountLockEntry :=
  match alGet e.readLocks t with
  | some c =>
    if c ≤ 1 then { e with readLocks := alErase e.readLocks t }
    else { e with readLocks := alSet e.readLocks t (c - 1) }
  | none => e

/-- Drop an account record once it holds no lock at all. -/
def normalizeEntry (l : List (Pubkey × AccountLockEntry)) (k : Pubkey) :
    List (Pubkey × AccountLockEntry) :=
  match alGet l k with
  | some e => if e.writeLock = none ∧ e.readLocks = [] then alErase l k else l
  | none => l

/-- Rust `unlock_accounts(writes, reads, thread)`: decrement the counts,
removing entries that reach zero. -/
def ThreadAwareAccountLocks.unlockAccounts (tal : ThreadAwareAccountLocks)
    (writes reads : List Pubkey) (t : ThreadId) : ThreadAwareAccountLocks :=
  let afterWrites := writes.foldl
    (fun l k =>
      normalizeEntry (alModify l k AccountLockEntry.subWrite) k) tal.locks
  let afterReads := reads.foldl
    (fun l k =>
      normalizeEntry (alModify l k (fun e => e.subRead t)) k) afterWrites
  { tal with locks := afterReads }

/-! Modelled from the spec: `InFlightTracker` (section 4.3); the source
file `in_flight_tracker.rs` is not among the sources. -/

structure InFlightTracker where
  numInFlightPerThread : List Nat
  cusInFlightPerThread : List Nat
  nextBatchId : Nat
  batchEntries : List (Nat × (ThreadId × Nat × Nat))
deriving DecidableEq, Repr

def InFlightTracker.new (numThreads : Nat) : InFlightTracker :=
  ⟨List.replicate numThreads 0, List.replicate numThreads 0, 0, []⟩

/-- Rust `track_batch(count, cus, thread)`: assign the next batch id, add
to the per-thread counters and record the entry. -/
def InFlightTracker.trackBatch (tr : InFlightTracker) (count cus : Nat)
    (t : ThreadId) : Nat × InFlightTracker :=
  (tr.nextBatchId,
    { numInFlightPerThread := modifyAt (· + count) t tr.numInFlightPerThread
      cusInFlightPerThread := modifyAt (· + cus) t tr.cusInFlightPerThread
      nextBatchId := tr.nextBatchId + 1
      batchEntries := tr.batchEntries ++ [(tr.nextBatchId, (t, count, cus))] })

/-- Rust `complete_batch(id)`: look the entry up (panicking, here `none`,
when absent), subtract from the counters, remove the entry and return the
thread. -/
def InFlightTracker.completeBatch (tr : InFlightTracker) (batchId : Nat) :
    Option (ThreadId × InFlightTracker) :=
  match alGet tr.batchEntries batchId with
  | none => none
  | some (t, count, cus) =>
    some (t,
      { tr with
          numInFlightPerThread := modifyAt (· - count) t tr.numInFlightPerThread
          cusInFlightPerThread := modifyAt (· - cus) t tr.cusInFlightPerThread
          batchEntries := alErase tr.batchEntries batchId })

/-! Modelled from the spec: `PriorityGraph` (section 4.5); the
`prio_graph` crate is not among the sources.  Per resource the graph keeps
the chain of the last write and the readers since it; an inserted
transaction is blocked by the most recent conflicting users still present,
and enters the main queue when it has no predecessor.  Popping removes an
id from the main queue but leaves its outgoing edges intact until
`unblock` releases them. -/

structure GraphNode where
  blockedBy : Nat
  successors : List TransactionPriorityId
deriving DecidableEq, Repr

structure PrioGraph where
  nodes : List (TransactionPriorityId × GraphNode)
  lastWrite : List (Pubkey × TransactionPriorityId)
  readers : List (Pubkey × List TransactionPriorityId)
  mainQueue : List TransactionPriorityId
deriving DecidableEq, Repr

def PrioGraph.new : PrioGraph := ⟨[], [], [], []⟩

/-- Predecessors a single access contributes: a read conflicts with the
last write; a write conflicts with the readers since the last write, or
with the last write when there is no reader. -/
def PrioGraph.predsOfAccess (g : PrioGraph) (k : Pubkey) (access : AccessKind) :
    List TransactionPriorityId :=
  match access with
  | .read => (alGet g.lastWrite k).toList
  | .write =>
    let rs := (alGet g.readers k).getD []
    if rs.isEmpty then (alGet g.lastWrite k).toList else rs

/-- Resource-table update of one access: a write becomes the last write
and clears the readers, a read joins the readers. -/
def PrioGraph.applyAccess (id : TransactionPriorityId)
    (lw : List (Pubkey × TransactionPriorityId))
    (rd : List (Pubkey × List TransactionPriorityId))
    (k : Pubkey) (access : AccessKind) :
    List (Pubkey × TransactionPriorityId) × List (Pubkey × List TransactionPriorityId) :=
  match access with
  | .write => (alSet lw k id, alSet rd k [])
  | .read => (lw, alSet rd k (((alGet rd k).getD []) ++ [id]))

/-- Rust `insert_transaction(id, resources)`. -/
def PrioGraph.insertTransaction (g : PrioGraph) (id : TransactionPriorityId)
    (accesses : List (Pubkey × AccessKind)) : PrioGraph :=
  let rawPreds := accesses.foldl
    (fun acc ka => acc ++ g.predsOfAccess ka.1 ka.2) []
  let preds := rawPreds.dedup.filter fun p => (alGet g.nodes p).isSome
  let withEdges := preds.foldl
    (fun ns p => alModify ns p fun nd => { nd with successors := nd.successors ++ [id] })
    g.nodes
  let tables := accesses.foldl
    (fun lr ka => PrioGraph.applyAccess id lr.1 lr.2 ka.1 ka.2)
    (g.lastWrite, g.readers)
  { nodes := alSet withEdges id { blockedBy := preds.length, successors := [] }
    lastWrite := tables.1
    readers := tables.2
    mainQueue := if preds.isEmpty then insertByPriority id g.mainQueue else g.mainQueue }

/-- Rust `pop()`: the best id of the main queue, which stays in the node
table until `unblock`. -/
def PrioGraph.pop (g : PrioGraph) : Option (TransactionPriorityId × PrioGraph) :=
  match g.mainQueue with
  | [] => none
  | h :: t => some (h, { g with mainQueue := t })

/-- Release of one predecessor edge at a successor: decrement its blocked
count and surface it on the main queue at zero. -/
def PrioGraph.releaseEdge (acc : List (TransactionPriorityId × GraphNode) × List TransactionPriorityId)
    (s : TransactionPriorityId) :
    List (TransactionPriorityId × GraphNode) × List TransactionPriorityId :=
  match alGet acc.1 s with
  | none => acc
  | some sn =>
    (alModify acc.1 s fun nd => { nd with blockedBy := nd.blockedBy - 1 },
      if sn.blockedBy - 1 = 0 then acc.2 ++ [s] else acc.2)

/-- Rust `unblock(id)`: release the edges the node imposed on its
successors, moving the newly unblocked ones to the main queue, then drop
the node. -/
def PrioGraph.unblock (g : PrioGraph) (id : TransactionPriorityId) : PrioGraph :=
  match alGet g.nodes id with
  | none => g
  | some nd =>
    let released := nd.successors.foldl PrioGraph.releaseEdge (g.nodes, [])
    { g with
        nodes := alErase released.1 id
        mainQueue := released.2.foldl (fun q s => insertByPriority s q) g.mainQueue }

/-- Rust `pop_and_unblock()`. -/
def PrioGraph.popAndUnblock (g : PrioGraph) :
    Option (TransactionPriorityId × PrioGraph) :=
  (g.pop).map fun p => (p.1, p.2.unblock p.1)

/-- Rust `is_empty()`: nothing is left in the main queue. -/
def PrioGraph.isEmptyQueue (g : PrioGraph) : Bool := g.mainQueue.isEmpty

/-- Rust `clear()`. -/
def PrioGraph.clear : PrioGraph := PrioGraph.new

/-- Fuelled body of the drain loop.  Each iteration pops one id off the
main queue and adds at most as many queue entries as successor edges it
erases, so the potential below strictly decreases and the chosen fuel
never runs out before the queue stays empty. -/
def drainAux : Nat → PrioGraph → List TransactionPriorityId × PrioGraph
  | 0, g => ([], g)
  | fuel + 1, g =>
    match g.mainQueue with
    | [] => ([], g)
    | h :: t =>
      let g' := PrioGraph.unblock { g with mainQueue := t } h
      let rest := drainAux fuel g'
      (h :: rest.1, rest.2)

/-- Queue length plus the total number of outgoing successor edges: an
upper bound on the drain-loop iterations. -/
def graphPotential (g : PrioGraph) : Nat :=
  g.mainQueue.length + g.nodes.foldl (fun n p => n + p.2.successors.length) 0

/-- The drain loop `std::iter::from_fn(|| prio_graph.pop_and_unblock())`:
repeat until the main queue stays empty, collecting the ids in pop
order. -/
def PrioGraph.drain (g : PrioGraph) : List TransactionPriorityId × PrioGraph :=
  drainAux (graphPotential g + 1) g

/-! Modelled from the spec: the `StateContainer` interface (section 6);
the source file `transaction_state_container.rs` is not among the
sources.  The pending queue is kept sorted by priority descending (pop
takes the head) over a map from id to transaction state. -/

structure Container where
  queue : List TransactionPriorityId
  states : List (TransactionId × TransactionState)
deriving DecidableEq, Repr

/-- Rust `pop()`: the highest-priority pending id. -/
def Container.pop (c : Container) : Option (TransactionPriorityId × Container) :=
  match c.queue with
  | [] => none
  | h :: t => some (h, { c with queue := t })

def Container.getTransactionState (c : Container) (id : TransactionId) :
    Option TransactionState :=
  alGet c.states id

/-- Rust `get_transaction_ttl(id)`. -/
def Container.getTransactionTTL (c : Container) (id : TransactionId) :
    Option SanitizedTransactionTTL :=
  (alGet c.states id).bind TransactionState.transactionTTL

def Container.setTransactionState (c : Container) (id : TransactionId)
    (ts : TransactionState) : Container :=
  { c with states := alModify c.states id fun _ => ts }

/-- Rust `remove_by_id(id)`. -/
def Container.removeById (c : Container) (id : TransactionId) : Container :=
  { c with states := alErase c.states id }

/-- Rust `retry_transaction(id, ttl)`: place the transaction back at its
current priority. -/
def Container.retryTransaction (c : Container) (id : TransactionId)
    (ttl : SanitizedTransactionTTL) : Container :=
  match alGet c.states id with
  | none => c
  | some ts =>
    { queue := insertByPriority ⟨ts.priority, id⟩ c.queue
      states := alModify c.states id fun s =>
        { s with status := .pendingInContainer ttl } }

/-- Rust `push_ids_into_queue(iter)`. -/
def Container.pushIdsIntoQueue (c : Container)
    (ids : List TransactionPriorityId) : Container :=
  ids.foldl (fun c' i => { c' with queue := insertByPriority i c'.queue }) c

/-! Messages between the scheduler and the workers
(`scheduler_messages.rs` is not among the sources; shapes from the spec,
section 3). -/

structure ConsumeWork where
  batchId : Nat
  ids : List TransactionId
  transactions : List Tx
  maxAges : List Nat
deriving DecidableEq, Repr

structure FinishedConsumeWork where
  work : ConsumeWork
  retryableIndexes : List Nat
deriving DecidableEq, Repr

/-! The scheduler itself (`prio_graph_scheduler.rs`).  A consume-work
sender is modelled as `none` when its channel is disconnected and as the
list of messages sent so far otherwise; the finished-work receiver is
modelled as `none` when disconnected and as its queued messages
otherwise. -/

structure PrioGraphSchedulerConfig where
  maxScheduledCus : Nat
  maxScannedTransactionsPerSchedulingPass : Nat
  lookAheadWindowSize : Nat
  targetTransactionsPerBatch : Nat
deriving DecidableEq, Repr

structure Sched where
  inFlightTracker : InFlightTracker
  accountLocks : ThreadAwareAccountLocks
  consumeWorkSenders : List (Option (List ConsumeWork))
  finishedConsumeWorkReceiver : Option (List FinishedConsumeWork)
  prioGraph : PrioGraph
  config : PrioGraphSchedulerConfig
deriving DecidableEq, Repr

structure SchedulingSummary where
  numScheduled : Nat
  numUnschedulable : Nat
  numFilteredOut : Nat
  filterTimeUs : Nat
deriving DecidableEq, Repr

/-- Per-thread accumulators being assembled for dispatch. -/
structure Batches where
  ids : List (List TransactionId)
  transactions : List (List Tx)
  maxAges : List (List Nat)
  totalCus : List Nat
deriving DecidableEq, Repr

/-- Rust `Batches::new(num_threads, target)`. -/
def Batches.new (numThreads : Nat) : Batches :=
  { ids := List.replicate numThreads []
    transactions := List.replicate numThreads []
    maxAges := List.replicate numThreads []
    totalCus := List.replicate numThreads 0 }

/-- Rust `take_batch(thread_id, target)`: move the thread's accumulators
out, leaving fresh empty ones. -/
def Batches.takeBatch (b : Batches) (t : ThreadId) :
    (List TransactionId × List Tx × List Nat × Nat) × Batches :=
  ((b.ids.getD t [], b.transactions.getD t [], b.maxAges.getD t [], b.totalCus.getD t 0),
    { ids := modifyAt (fun _ => []) t b.ids
      transactions := modifyAt (fun _ => []) t b.transactions
      maxAges := modifyAt (fun _ => []) t b.maxAges
      totalCus := modifyAt (fun _ => 0) t b.totalCus })

/-- Lexicographic comparison key order of `select_thread`. -/
def lexLt (a b : Nat × Nat) : Bool :=
  decide (a.1 < b.1) || (decide (a.1 = b.1) && decide (a.2 < b.2))

/-- Rust `Iterator::min_by` keeps the first of equally minimal elements:
replace the best candidate only on a strictly smaller key. -/
def minByKey (key : Nat → Nat × Nat) (l : List Nat) : Option Nat :=
  l.foldl
    (fun best t =>
      match best with
      | none => some t
      | some b => if lexLt (key t) (key b) then some t else some b)
    none

/-- The load-balancing key of `select_thread` for one thread. -/
def selectThreadKey (batchCusPerThread inFlightCusPerThread : List Nat)
    (batchesPerThread : List (List Tx)) (inFlightPerThread : List Nat)
    (t : ThreadId) : Nat × Nat :=
  (batchCusPerThread.getD t 0 + inFlightCusPerThread.getD t 0,
    (batchesPerThread.getD t []).length + inFlightPerThread.getD t 0)

/-- Rust `select_thread(thread_set, ...)`: the thread of the set
minimising queued compute units, tie-broken on queued transaction counts;
`none` models the panic on an empty set. -/
def selectThread (threadSet : ThreadSet)
    (batchCusPerThread inFlightCusPerThread : List Nat)
    (batchesPerThread : List (List Tx)) (inFlightPerThread : List Nat) :
    Option ThreadId :=
  minByKey
    (selectThreadKey batchCusPerThread inFlightCusPerThread batchesPerThread
      inFlightPerThread)
    threadSet.toAscList

/-- Rust `get_transaction_account_access(transaction)`: every account key
with `Write` access at a writable index and `Read` access otherwise. -/
def getTransactionAccountAccess (transaction : SanitizedTransactionTTL) :
    List (Pubkey × AccessKind) :=
  transaction.transaction.accountKeys.enum.map fun p =>
    if transaction.transaction.isWritable p.1 then (p.2, AccessKind.write)
    else (p.2, AccessKind.read)

/-- Rust `send_batch(batches, thread_index)`: an empty accumulator sends
nothing; otherwise the batch is taken, tracked in flight and sent on the
thread's consume channel, a disconnected channel being the fatal
`DisconnectedSendChannel` error. -/
def sendBatch (sched : Sched) (batches : Batches) (threadIndex : Nat) :
    Except RunError (Nat × Sched × Batches) :=
  if (batches.ids.getD threadIndex []).isEmpty then .ok (0, sched, batches)
  else
    let taken := batches.takeBatch threadIndex
    let tracked := sched.inFlightTracker.trackBatch taken.1.1.length
      taken.1.2.2.2 threadIndex
    let work : ConsumeWork :=
      { batchId := tracked.1
        ids := taken.1.1
        transactions := taken.1.2.1
        maxAges := taken.1.2.2.1 }
    match sched.consumeWorkSenders.getD threadIndex none with
    | none => .error (.failed (.DisconnectedSendChannel "consume work sender"))
    | some msgs =>
      .ok (taken.1.1.length,
        { sched with
            inFlightTracker := tracked.2
            consumeWorkSenders :=
              sched.consumeWorkSenders.set threadIndex (some (msgs ++ [work])) },
        taken.2)

/-- Rust `send_batches(batches)`: send every thread's accumulator,
summing the sent counts. -/
def sendBatches (sched : Sched) (batches : Batches) :
    Except RunError (Nat × Sched × Batches) :=
  (List.range sched.consumeWorkSenders.length).foldlM
    (fun acc threadIndex => do
      let r ← sendBatch acc.2.1 acc.2.2 threadIndex
      .ok (acc.1 + r.1, r.2.1, r.2.2))
    ((0, sched, batches) : Nat × Sched × Batches)

/-- The reserved pre-lock filter action (`scheduler.rs` is not among the
sources; the single variant is from the spec, section 4.6). -/
inductive PreLockFilterAction
  | AttemptToSchedule
deriving DecidableEq, Repr

inductive TransactionSchedulingError
  | UnschedulableConflicts
  | UnschedulableThread
deriving DecidableEq, Repr

/-- Outcome of `try_schedule_transaction`, carrying the updated pieces of
state the Rust code mutates in place. -/
inductive TryScheduleOutcome
  | unschedulable (e : TransactionSchedulingError)
      (blockingLocks : ReadWriteAccountSet)
  | scheduled (threadId : ThreadId) (transaction : Tx) (maxAge : Nat)
      (cost : Nat) (newState : TransactionState)
      (locks : ThreadAwareAccountLocks)

/-- Rust `try_schedule_transaction`: apply the pre-lock filter, defer on a
conflict with the blocking set (claiming the transaction's locks), then
attempt the account locks over `ThreadSet::any(num_threads)` with the
load-balancing selector; on success the state transitions to pending and
the payload, age and cost are handed to the caller. -/
def tryScheduleTransaction (transactionState : TransactionState)
    (preLockFilter : TransactionState → PreLockFilterAction)
    (blockingLocks : ReadWriteAccountSet)
    (accountLocks : ThreadAwareAccountLocks) (numThreads : Nat)
    (threadSelector : ThreadSet → Option ThreadId) :
    Except RunError TryScheduleOutcome :=
  match preLockFilter transactionState with
  | .AttemptToSchedule =>
    match transactionState.transactionTTL with
    | none => .error (.panicked "transaction_ttl: already in flight")
    | some ttl =>
      let transaction := ttl.transaction
      if !blockingLocks.checkLocks transaction then
        .ok (.unschedulable .UnschedulableConflicts
          (blockingLocks.takeLocks transaction))
      else
        match accountLocks.tryLockAccounts (writeAccountLocks transaction)
          (readAccountLocks transaction) (ThreadSet.any numThreads)
          threadSelector with
        | .error e => .error e
        | .ok (.error .MultipleConflicts) =>
          .ok (.unschedulable .UnschedulableConflicts
            (blockingLocks.takeLocks transaction))
        | .ok (.error .ThreadNotAllowed) =>
          .ok (.unschedulable .UnschedulableThread
            (blockingLocks.takeLocks transaction))
        | .ok (.ok (threadId, locks')) =>
          match transactionState.transitionToPending with
          | none => .error (.panicked "transition_to_pending: already in flight")
          | some (sttl, ts') =>
            .ok (.scheduled threadId sttl.transaction sttl.maxAge ts'.cost ts'
              locks')

/-! The chunked pre-graph filtering (`chunked_pops` in `schedule`). -/

/-- Pop up to `n` ids from the container, in order. -/
def popUpTo : Nat → Container → List TransactionPriorityId × Container
  | 0, c => ([], c)
  | n + 1, c =>
    match c.pop with
    | none => ([], c)
    | some (id, c') =>
      let rest := popUpTo n c'
      (id :: rest.1, rest.2)

/-- Borrow the payloads of the popped ids (`get_transaction_ttl(...)
.unwrap()`, `none` modelling the panic). -/
def gatherTxs (c : Container) : List TransactionPriorityId → Option (List Tx)
  | [] => some []
  | id :: rest =>
    match c.getTransactionTTL id.id with
    | none => none
    | some ttl => (gatherTxs c rest).map (ttl.transaction :: ·)

/-- The Rust filter writes into a bool slice of the chunk size pre-filled
with `true`; entries it leaves untouched stay `true`. -/
def padTrue (bs : List Bool) (n : Nat) : List Bool :=
  bs.take n ++ List.replicate (n - bs.length) true

/-- Per-id application of the filter results: a `true` transaction is
inserted into the priority graph with its account accesses, a `false` one
is removed from the container and counted as filtered out. -/
def applyFilterResults : Container → PrioGraph →
    List (TransactionPriorityId × Bool) → Nat →
    Except RunError (Container × PrioGraph × Nat)
  | c, g, [], nf => .ok (c, g, nf)
  | c, g, (id, b) :: rest, nf =>
    if b then
      match c.getTransactionTTL id.id with
      | none => .error (.panicked "get_transaction_ttl: missing state")
      | some ttl =>
        applyFilterResults c
          (g.insertTransaction id (getTransactionAccountAccess ttl)) rest nf
    else applyFilterResults (c.removeById id.id) g rest (nf + 1)

/-- The `chunked_pops` closure of `schedule`: while the window budget is
positive, pop a chunk of at most 128 ids, charge the chunk size to the
budget, run the pre-graph filter on the chunk and apply its results,
stopping when the container came up short.  Returns the container, the
graph, the remaining budget and the filtered-out count. -/
def chunkedPopsAux (preGraphFilter : List Tx → List Bool) :
    Nat → Container → PrioGraph → Nat → Nat →
    Except RunError (Container × PrioGraph × Nat × Nat)
  | 0, c, g, windowBudget, nf => .ok (c, g, windowBudget, nf)
  | fuel + 1, c, g, windowBudget, nf =>
    if windowBudget = 0 then .ok (c, g, windowBudget, nf)
    else
      let chunkSize := min windowBudget 128
      let popped := popUpTo chunkSize c
      let budget' := windowBudget - chunkSize
      match gatherTxs popped.2 popped.1 with
      | none => .error (.panicked "get_transaction_ttl: missing state")
      | some txs =>
        let filterResults := padTrue (preGraphFilter txs) popped.1.length
        match applyFilterResults popped.2 g (popped.1.zip filterResults) nf with
        | .error e => .error e
        | .ok r =>
          if popped.1.length ≠ chunkSize then .ok (r.1, r.2.1, budget', r.2.2)
          else chunkedPopsAux preGraphFilter fuel r.1 r.2.1 budget' r.2.2

/-- Fuelled with the budget itself, which is exact: every iteration
consumes at least one unit of budget and one unit of fuel, so fuel can
only run out once the budget is exhausted. -/
def chunkedPops (preGraphFilter : List Tx → List Bool)
    (c : Container) (g : PrioGraph) (windowBudget nf : Nat) :
    Except RunError (Container × PrioGraph × Nat × Nat) :=
  chunkedPopsAux preGraphFilter windowBudget c g windowBudget nf

/-! The scheduling pass itself.  The mutable locals of `schedule` are
gathered into one loop state. -/

structure LoopState where
  sched : Sched
  container : Container
  batches : Batches
  schedulableThreads : ThreadSet
  unschedulableIds : List TransactionPriorityId
  blockingLocks : ReadWriteAccountSet
  unblockThisBatch : List TransactionPriorityId
  numScanned : Nat
  numScheduled : Nat
  numSent : Nat
  numUnschedulable : Nat
  numFilteredOut : Nat
  windowBudget : Nat

/-- Control outcome of one iteration of the inner pop loop: `stop` is a
`break` (or an empty main queue), `next` continues the loop. -/
inductive InnerStep
  | stop (ls : LoopState)
  | next (ls : LoopState)

/-- One iteration of the inner `while let Some(id) = prio_graph.pop()`
loop of `schedule`: pop, count the scan, record the id for unblocking,
try to schedule it, then either defer it (recording its blocking locks)
or append it to its thread's batch, flushing the batch at the target
size, removing the thread at the cu cap, and breaking at an empty
schedulable set or the scan cap. -/
def innerLoopStep (preLockFilter : TransactionState → PreLockFilterAction)
    (maxCuPerThread numThreads target cap : Nat) (ls : LoopState) :
    Except RunError InnerStep :=
  match ls.sched.prioGraph.pop with
  | none => .ok (.stop ls)
  | some (id, g') =>
    let ls1 : LoopState :=
      { ls with
          sched := { ls.sched with prioGraph := g' }
          numScanned := ls.numScanned + 1
          unblockThisBatch := ls.unblockThisBatch ++ [id] }
    match ls1.container.getTransactionState id.id with
    | none => .error (.panicked "transaction state must exist")
    | some transactionState =>
      match tryScheduleTransaction transactionState preLockFilter
        ls1.blockingLocks ls1.sched.accountLocks numThreads
        (fun threadSet =>
          selectThread threadSet ls1.batches.totalCus
            ls1.sched.inFlightTracker.cusInFlightPerThread
            ls1.batches.transactions
            ls1.sched.inFlightTracker.numInFlightPerThread) with
      | .error e => .error e
      | .ok (.unschedulable _e blocking') =>
        let ls2 : LoopState :=
          { ls1 with
              unschedulableIds := ls1.unschedulableIds ++ [id]
              numUnschedulable := ls1.numUnschedulable + 1
              blockingLocks := blocking' }
        if cap ≤ ls2.numScanned then .ok (.stop ls2) else .ok (.next ls2)
      | .ok (.scheduled threadId transaction maxAge cost newState locks') =>
        let ls2 : LoopState :=
          { ls1 with
              sched := { ls1.sched with accountLocks := locks' }
              container := ls1.container.setTransactionState id.id newState
              numScheduled := ls1.numScheduled + 1
              batches :=
                { ids := modifyAt (· ++ [id.id]) threadId ls1.batches.ids
                  transactions :=
                    modifyAt (· ++ [transaction]) threadId ls1.batches.transactions
                  maxAges := modifyAt (· ++ [maxAge]) threadId ls1.batches.maxAges
                  totalCus := modifyAt (· + cost) threadId ls1.batches.totalCus } }
        match
          (if target ≤ (ls2.batches.ids.getD threadId []).length then
            match sendBatch ls2.sched ls2.batches threadId with
            | .error e => .error e
            | .ok r =>
              .ok { ls2 with
                      sched := r.2.1
                      batches := r.2.2
                      numSent := ls2.numSent + r.1 }
          else .ok ls2 : Except RunError LoopState) with
        | .error e => .error e
        | .ok ls3 =>
          if maxCuPerThread ≤
              ls3.sched.inFlightTracker.cusInFlightPerThread.getD threadId 0 +
                ls3.batches.totalCus.getD threadId 0 then
            let ls4 : LoopState :=
              { ls3 with
                  schedulableThreads := ls3.schedulableThreads.erase threadId }
            if ls4.schedulableThreads = ∅ then .ok (.stop ls4)
            else if cap ≤ ls4.numScanned then .ok (.stop ls4)
            else .ok (.next ls4)
          else if cap ≤ ls3.numScanned then .ok (.stop ls3)
          else .ok (.next ls3)

/-- State after the pop bookkeeping of one inner iteration. -/
def poppedState (ls : LoopState) (id : TransactionPriorityId) (g' : PrioGraph) :
    LoopState :=
  { ls with
      sched := { ls.sched with prioGraph := g' }
      numScanned := ls.numScanned + 1
      unblockThisBatch := ls.unblockThisBatch ++ [id] }

/-- State after deferring the popped transaction. -/
def unschedState (ls : LoopState) (id : TransactionPriorityId) (g' : PrioGraph)
    (blocking' : ReadWriteAccountSet) : LoopState :=
  { poppedState ls id g' with
      unschedulableIds := ls.unschedulableIds ++ [id]
      numUnschedulable := ls.numUnschedulable + 1
      blockingLocks := blocking' }

/-- State after appending the popped transaction to its thread's batch. -/
def schedState (ls : LoopState) (id : TransactionPriorityId) (g' : PrioGraph)
    (threadId : ThreadId) (transaction : Tx) (maxAge cost : Nat)
    (newState : TransactionState) (locks' : ThreadAwareAccountLocks) : LoopState :=
  { poppedState ls id g' with
      sched := { (poppedState ls id g').sched with accountLocks := locks' }
      container := ls.container.setTransactionState id.id newState
      numScheduled := ls.numScheduled + 1
      batches :=
        { ids := modifyAt (· ++ [id.id]) threadId ls.batches.ids
          transactions := modifyAt (· ++ [transaction]) threadId ls.batches.transactions
          maxAges := modifyAt (· ++ [maxAge]) threadId ls.batches.maxAges
          totalCus := modifyAt (· + cost) threadId ls.batches.totalCus } }

/-- State after an intra-loop batch flush. -/
def flushedState (ls2 : LoopState) (r : Nat × Sched × Batches) : LoopState :=
  { ls2 with sched := r.2.1, batches := r.2.2, numSent := ls2.numSent + r.1 }

/-- State after removing a thread that reached the cu cap. -/
def cuRemovedState (ls3 : LoopState) (threadId : ThreadId) : LoopState :=
  { ls3 with schedulableThreads := ls3.schedulableThreads.erase threadId }

/-- The inner pop loop, fuelled; the fuel is instantiated with the
main-queue length, which makes it exact because each iteration pops one
element and nothing is inserted within the loop. -/
def innerLoop (preLockFilter : TransactionState → PreLockFilterAction)
    (maxCuPerThread numThreads target cap : Nat) :
    Nat → LoopState → Except RunError LoopState
  | 0, ls => .ok ls
  | fuel + 1, ls =>
    match innerLoopStep preLockFilter maxCuPerThread numThreads target cap ls with
    | .error e => .error e
    | .ok (.stop ls') => .ok ls'
    | .ok (.next ls') =>
      innerLoop preLockFilter maxCuPerThread numThreads target cap fuel ls'

/-- One iteration of the outer scan loop after the inner pops: send all
non-empty batches, replenish the window budget and the graph, then
unblock everything popped in this round. -/
def outerLoopStep (preGraphFilter : List Tx → List Bool) (ls : LoopState) :
    Except RunError LoopState :=
  match sendBatches ls.sched ls.batches with
  | .error e => .error e
  | .ok r =>
    let ls1 : LoopState :=
      { ls with sched := r.2.1, batches := r.2.2, numSent := ls.numSent + r.1 }
    let budget := ls1.windowBudget + ls1.unblockThisBatch.length
    match chunkedPops preGraphFilter ls1.container ls1.sched.prioGraph budget
      ls1.numFilteredOut with
    | .error e => .error e
    | .ok cp =>
      let unblocked := ls1.unblockThisBatch.foldl PrioGraph.unblock cp.2.1
      .ok { ls1 with
              container := cp.1
              sched := { ls1.sched with prioGraph := unblocked }
              windowBudget := cp.2.2.1
              numFilteredOut := cp.2.2.2
              unblockThisBatch := [] }

/-- The outer `while num_scanned < max_scanned...` loop of `schedule`,
fuelled; a fuel of `cap + 1` is exact because every non-final iteration
pops at least one transaction and therefore raises `num_scanned`. -/
def outerLoop (preGraphFilter : List Tx → List Bool)
    (preLockFilter : TransactionState → PreLockFilterAction)
    (maxCuPerThread numThreads target cap : Nat) :
    Nat → LoopState → Except RunError LoopState
  | 0, ls => .ok ls
  | fuel + 1, ls =>
    if cap ≤ ls.numScanned then .ok ls
    else if ls.sched.prioGraph.isEmptyQueue then .ok ls
    else
      match innerLoop preLockFilter maxCuPerThread numThreads target cap
        ls.sched.prioGraph.mainQueue.length ls with
      | .error e => .error e
      | .ok ls1 =>
        match outerLoopStep preGraphFilter ls1 with
        | .error e => .error e
        | .ok ls2 =>
          outerLoop preGraphFilter preLockFilter maxCuPerThread numThreads
            target cap fuel ls2

/-- Rust `schedule(container, pre_graph_filter, pre_lock_filter)`: the
whole scheduling pass, returning the updated scheduler, the updated
container and the summary.  Panics of the translated code (including the
division by a zero thread count and the final scheduled-equals-sent
assertion) surface as `RunError.panicked`. -/
def schedule (sched : Sched) (container : Container)
    (preGraphFilter : List Tx → List Bool)
    (preLockFilter : TransactionState → PreLockFilterAction) :
    Except RunError (Sched × Container × SchedulingSummary) :=
  let numThreads := sched.consumeWorkSenders.length
  if numThreads = 0 then .error (.panicked "attempt to divide by zero")
  else
    let maxCuPerThread := sched.config.maxScheduledCus / numThreads
    let schedulableThreads := (List.range numThreads).foldl
      (fun s t =>
        if maxCuPerThread ≤ sched.inFlightTracker.cusInFlightPerThread.getD t 0
        then s.erase t else s)
      (ThreadSet.any numThreads)
    if schedulableThreads = ∅ then
      .ok (sched, container,
        { numScheduled := 0, numUnschedulable := 0, numFilteredOut := 0
          filterTimeUs := 0 })
    else
      match chunkedPops preGraphFilter container sched.prioGraph
        sched.config.lookAheadWindowSize 0 with
      | .error e => .error e
      | .ok cp =>
        let cap := sched.config.maxScannedTransactionsPerSchedulingPass
        let ls0 : LoopState :=
          { sched := { sched with prioGraph := cp.2.1 }
            container := cp.1
            batches := Batches.new numThreads
            schedulableThreads := schedulableThreads
            unschedulableIds := []
            blockingLocks := ReadWriteAccountSet.empty
            unblockThisBatch := []
            numScanned := 0
            numScheduled := 0
            numSent := 0
            numUnschedulable := 0
            numFilteredOut := cp.2.2.2
            windowBudget := cp.2.2.1 }
        match outerLoop preGraphFilter preLockFilter maxCuPerThread numThreads
          sched.config.targetTransactionsPerBatch cap (cap + 1) ls0 with
        | .error e => .error e
        | .ok ls =>
          match sendBatches ls.sched ls.batches with
          | .error e => .error e
          | .ok r =>
            let numSent := ls.numSent + r.1
            let c1 := ls.container.pushIdsIntoQueue ls.unschedulableIds
            let drained := r.2.1.prioGraph.drain
            let c2 := c1.pushIdsIntoQueue drained.1
            let schedF : Sched := { r.2.1 with prioGraph := PrioGraph.clear }
            if ls.numScheduled = numSent then
              .ok (schedF, c2,
                { numScheduled := ls.numScheduled
                  numUnschedulable := ls.numUnschedulable
                  numFilteredOut := ls.numFilteredOut
                  filterTimeUs := 0 })
            else
              .error
                (.panicked "number of scheduled and sent transactions must match")

/-! The completion pipeline. -/

/-- Rust `complete_batch(batch_id, transactions)`: look up and remove the
in-flight entry, then unlock every transaction's accounts on the batch's
thread. -/
def completeBatch (sched : Sched) (batchId : Nat) (transactions : List Tx) :
    Except RunError Sched :=
  match sched.inFlightTracker.completeBatch batchId with
  | none => .error (.panicked "complete_batch: unknown batch id")
  | some (threadId, tracker') =>
    let locks' := transactions.foldl
      (fun al tx =>
        al.unlockAccounts (writeAccountLocks tx) (readAccountLocks tx) threadId)
      sched.accountLocks
    .ok { sched with inFlightTracker := tracker', accountLocks := locks' }

/-- Three-way zip, Rust `izip!(ids, transactions, max_ages)` (truncating
to the shortest list). -/
def zip3 {α β γ : Type} : List α → List β → List γ → List (α × β × γ)
  | a :: as, b :: bs, c :: cs => (a, b, c) :: zip3 as bs cs
  | _, _, _ => []

/-- The peekable walk over ids and `retryable_indexes` of
`try_receive_completed`: an id whose position equals the next retryable
index is retried with its payload and age, every other id is removed. -/
def processRetryable (c : Container) :
    List (Nat × TransactionId × Tx × Nat) → List Nat → Container
  | [], _ => c
  | (index, id, tx, age) :: rest, retryable =>
    match retryable with
    | rIdx :: rRest =>
      if rIdx = index then
        processRetryable (c.retryTransaction id ⟨tx, age⟩) rest rRest
      else processRetryable (c.removeById id) rest (rIdx :: rRest)
    | [] => processRetryable (c.removeById id) rest []

/-- Rust `try_receive_completed(container)`: receive one finished batch
if any, free its locks, retry or remove each transaction, and return the
batch's transaction and retryable counts; `Ok((0, 0))` when the channel
is empty and `DisconnectedRecvChannel` when it is closed. -/
def tryReceiveCompleted (sched : Sched) (container : Container) :
    Except RunError ((Nat × Nat) × Sched × Container) :=
  match sched.finishedConsumeWorkReceiver with
  | none => .error (.failed (.DisconnectedRecvChannel "finished consume work"))
  | some [] => .ok ((0, 0), sched, container)
  | some (fw :: rest) =>
    let sched1 : Sched := { sched with finishedConsumeWorkReceiver := some rest }
    match completeBatch sched1 fw.work.batchId fw.work.transactions with
    | .error e => .error e
    | .ok sched2 =>
      let triples :=
        (zip3 fw.work.ids fw.work.transactions fw.work.maxAges).enum
      let container' := processRetryable container triples fw.retryableIndexes
      .ok ((fw.work.ids.length, fw.retryableIndexes.length), sched2, container')

/-- The `loop` of `receive_completed`, fuelled; a fuel one above the
queued message count is exact because each iteration consumes one
message. -/
def receiveCompletedAux :
    Nat → Nat → Nat → Sched → Container →
    Except RunError ((Nat × Nat) × Sched × Container)
  | 0, totalTx, totalRetryable, sched, container =>
    .ok ((totalTx, totalRetryable), sched, container)
  | fuel + 1, totalTx, totalRetryable, sched, container =>
    match tryReceiveCompleted sched container with
    | .error e => .error e
    | .ok ((numTransactions, numRetryable), sched', container') =>
      if numTransactions = 0 then
        .ok ((totalTx, totalRetryable), sched', container')
      else
        receiveCompletedAux fuel (totalTx + numTransactions)
          (totalRetryable + numRetryable) sched' container'

/-- Rust `receive_completed(container)`: drain the finished-consume
channel without blocking, accumulating totals. -/
def receiveCompleted (sched : Sched) (container : Container) :
    Except RunError ((Nat × Nat) × Sched × Container) :=
  receiveCompletedAux
    (((sched.finishedConsumeWorkReceiver.getD []).length) + 1) 0 0 sched
    container

/-! Derived observations used to state the verified properties. -/

/-- Number of copies of a transaction inside the per-thread batch
accumulators. -/
def batchesDispatchCount (b : Batches) (tx : Tx) : Nat :=
  b.transactions.foldl (fun n l => n + l.count tx) 0

/-- Number of copies of a transaction inside messages already sent on the
consume channels. -/
def channelDispatchCount (chs : List (Option (List ConsumeWork))) (tx : Tx) : Nat :=
  chs.foldl (fun n ch => n + (ch.getD []).foldl (fun m w => m + w.transactions.count tx) 0) 0

/-- Number of copies of a transaction dispatched so far in a pass: in an
accumulating batch or already sent. -/
def dispatchCount (ls : LoopState) (tx : Tx) : Nat :=
  batchesDispatchCount ls.batches tx +
    channelDispatchCount ls.sched.consumeWorkSenders tx

/-- Pointwise inclusion of claimed account sets. -/
def rwSubset (a b : ReadWriteAccountSet) : Prop :=
  a.writeSet ⊆ b.writeSet ∧ a.readSet ⊆ b.readSet

/-- Total number of ids sitting in the batch accumulators. -/
def batchTotal (b : Batches) : Nat :=
  b.ids.foldl (fun n l => n + l.length) 0

/-- A well-formed consume-work message: non-empty, with ids, payloads and
ages in parallel. -/
def goodWork (w : ConsumeWork) : Prop :=
  w.ids ≠ [] ∧ w.ids.length = w.transactions.length ∧
    w.ids.length = w.maxAges.length

/-- Every message on every connected consume channel is well-formed. -/
def goodChannels (chs : List (Option (List ConsumeWork))) : Prop :=
  ∀ ch ∈ chs, ∀ w ∈ ch.getD [], goodWork w

/-- The batch accumulators keep their ids, payloads and ages in
parallel. -/
def batchesAligned (b : Batches) : Prop :=
  b.ids.length = b.transactions.length ∧ b.ids.length = b.maxAges.length ∧
    ∀ t : Nat, (b.ids.getD t []).length = (b.transactions.getD t []).length ∧
      (b.ids.getD t []).length = (b.maxAges.getD t []).length

/-- A well-formed container for the prefill phase: queued ids are distinct
and each one holds a pending payload. -/
def containerWF (c : Container) : Prop :=
  (c.queue.map (·.id)).Nodup ∧
    ∀ tp ∈ c.queue, (c.getTransactionTTL tp.id).isSome

/-- Modelled from the spec (section 4.9 step 3), as the refinement target
of the completion walk: an id whose position is in the retryable set is
retried with its payload and age, every other id is removed. -/
def completionSpecWalk (c : Container) (ids : List TransactionId)
    (txs : List Tx) (ages : List Nat) (retryable : List Nat) : Container :=
  ((zip3 ids txs ages).enum).foldl
    (fun c' p =>
      if p.1 ∈ retryable then c'.retryTransaction p.2.1 ⟨p.2.2.1, p.2.2.2⟩
      else c'.removeById p.2.1)
    c

/-- Modelled from the spec (section 4.5), as the refinement target of
`get_transaction_account_access`: each account key paired with `Write`
at a writable index and `Read` otherwise. -/
def specAccess (ttl : SanitizedTransactionTTL) : List (Pubkey × AccessKind) :=
  ttl.transaction.accountKeys.enum.map fun p =>
    (p.2,
      if ttl.transaction.isWritable p.1 then AccessKind.write
      else AccessKind.read)

/-- Modelled from the spec (section 4.6 step 2), as the refinement target
of `chunked_pops` for a pointwise filter: pop one id at a time while the
budget lasts, dropping the transactions the filter rejects and inserting
the others into the priority graph with their account accesses. -/
def prefillSpec (p : Tx → Bool) :
    Container → PrioGraph → Nat → Nat →
    Except RunError (Container × PrioGraph × Nat)
  | c, g, 0, nf => .ok (c, g, nf)
  | c, g, budget + 1, nf =>
    match c.pop with
    | none => .ok (c, g, nf)
    | some (id, c') =>
      match c'.getTransactionTTL id.id with
      | none => .error (.panicked "get_transaction_ttl: missing state")
      | some ttl =>
        if p ttl.transaction then
          prefillSpec p c' (g.insertTransaction id (specAccess ttl)) budget nf
        else prefillSpec p (c'.removeById id.id) g budget (nf + 1)

/-! Concrete example inputs used to exercise the definitions. -/

/-- A transaction writing one account. -/
def mkTx (k : Pubkey) : Tx := ⟨[k], [true]⟩

/-- A pending transaction state with the given priority and cost. -/
def mkState (pri cost : Nat) (tx : Tx) : TransactionState :=
  ⟨pri, cost, .pendingInContainer ⟨tx, 0⟩⟩

/-- A pre-graph filter accepting everything. -/
def constTrue : List Tx → List Bool := fun txs => txs.map fun _ => true

/-- The only pre-lock filter the source knows. -/
def noFilter : TransactionState → PreLockFilterAction := fun _ => .AttemptToSchedule

/-- A fresh single-threaded scheduler with a tight cu budget:
`max_scheduled_cus = 10`, scan cap `10`, look-ahead `3`, batch target
`2`; so `max_cu_per_thread = 10`. -/
def exSchedTight : Sched :=
  { inFlightTracker := InFlightTracker.new 1
    accountLocks := ⟨1, []⟩
    consumeWorkSenders := [some []]
    finishedConsumeWorkReceiver := some []
    prioGraph := PrioGraph.new
    config := ⟨10, 10, 3, 2⟩ }

/-- Three disjoint transactions of cost `10` each, at priorities 3, 2, 1. -/
def exContainerThree : Container :=
  { queue := [⟨3, 0⟩, ⟨2, 1⟩, ⟨1, 2⟩]
    states := [(0, mkState 3 10 (mkTx 100)), (1, mkState 2 10 (mkTx 101)),
               (2, mkState 1 10 (mkTx 102))] }

/-- A fresh single-threaded scheduler with a roomy budget. -/
def exSchedRoomy : Sched :=
  { inFlightTracker := InFlightTracker.new 1
    accountLocks := ⟨1, []⟩
    consumeWorkSenders := [some []]
    finishedConsumeWorkReceiver := some []
    prioGraph := PrioGraph.new
    config := ⟨1000000, 1000, 256, 64⟩ }

/-- Two disjoint transactions at priorities 2 and 1. -/
def exContainerTwo : Container :=
  { queue := [⟨2, 1⟩, ⟨1, 0⟩]
    states := [(0, mkState 1 5 (mkTx 100)), (1, mkState 2 5 (mkTx 101))] }

/-- The result triple of the roomy two-transaction run (defaulting to the
inputs if the run failed, which it does not). -/
def exRunRoomy : Sched × Container × SchedulingSummary :=
  ((schedule exSchedRoomy exContainerTwo constTrue noFilter).toOption).getD
    (exSchedRoomy, exContainerTwo,
      { numScheduled := 0, numUnschedulable := 0, numFilteredOut := 0
        filterTimeUs := 0 })

/-- Weak lexicographic order on the `select_thread` keys. -/
def lexLe (a b : Nat × Nat) : Prop :=
  a.1 < b.1 ∨ (a.1 = b.1 ∧ a.2 ≤ b.2)

/-- The tight scheduler with its single thread already at the cu cap. -/
def exSchedCapped : Sched :=
  { exSchedTight with
      inFlightTracker :=
        { InFlightTracker.new 1 with cusInFlightPerThread := [10] } }

/-- The roomy scheduler with its only consume channel disconnected. -/
def exSchedDisc : Sched := { exSchedRoomy with consumeWorkSenders := [none] }

/-- The roomy scheduler with the finished-work channel disconnected. -/
def exSchedNoRecv : Sched :=
  { exSchedRoomy with finishedConsumeWorkReceiver := none }

/-- A one-thread batch accumulator holding a single transaction. -/
def exBatchesOne : Batches :=
  { ids := [[7]], transactions := [[mkTx 100]], maxAges := [[0]], totalCus := [5] }

/-- One step of the completion walk over an enumerated triple (position,
id, payload, age): the id is retried when its position is in the
retryable set and removed otherwise. -/
def retryStep (retryable : List Nat) (c' : Container)
    (p : Nat × TransactionId × Tx × Nat) : Container :=
  if p.1 ∈ retryable then c'.retryTransaction p.2.1 ⟨p.2.2.1, p.2.2.2⟩
  else c'.removeById p.2.1

/-- A finished batch of three transactions, the first and third
retryable. -/
def exRcWork : FinishedConsumeWork :=
  { work :=
      { batchId := 0
        ids := [10, 11, 12]
        transactions := [mkTx 200, mkTx 201, mkTx 202]
        maxAges := [0, 0, 0] }
    retryableIndexes := [0, 2] }

/-- A single-thread scheduler with that batch tracked in flight and
queued on the finished-work channel. -/
def exRcSched : Sched :=
  { inFlightTracker :=
      { numInFlightPerThread := [3]
        cusInFlightPerThread := [30]
        nextBatchId := 1
        batchEntries := [(0, (0, 3, 30))] }
    accountLocks := ⟨1, []⟩
    consumeWorkSenders := [some []]
    finishedConsumeWorkReceiver := some [exRcWork]
    prioGraph := PrioGraph.new
    config := ⟨1000000, 1000, 256, 64⟩ }

/-- The container still holding the states of the three in-flight
transactions. -/
def exRcContainer : Container :=
  { queue := []
    states := [(10, mkState 3 10 (mkTx 200)), (11, mkState 2 10 (mkTx 201)),
               (12, mkState 1 10 (mkTx 202))] }

/-! Helper lemmas. -/

theorem lexLe_refl (a : Nat × Nat) : lexLe a a := by
  simp [lexLe]

theorem lexLe_trans {a b c : Nat × Nat} (h1 : lexLe a b) (h2 : lexLe b c) :
    lexLe a c := by
  simp only [lexLe] at *
  omega

theorem lexLt_true_le {a b : Nat × Nat} (h : lexLt a b = true) : lexLe a b := by
  simp only [lexLt, lexLe, Bool.or_eq_true, Bool.and_eq_true,
    decide_eq_true_eq] at *
  omega

theorem lexLt_false_le {a b : Nat × Nat} (h : lexLt a b = false) : lexLe b a := by
  simp only [lexLt, lexLe, Bool.or_eq_false_iff, Bool.and_eq_false_iff,
    decide_eq_false_iff_not] at *
  omega

theorem mem_toAscList {s : ThreadSet} {t : Nat} :
    t ∈ s.toAscList ↔ t ∈ s := by
  simp only [ThreadSet.toAscList, List.mem_filter, List.mem_range,
    decide_eq_true_eq]
  constructor
  · exact fun h => h.2
  · intro h
    refine ⟨?_, h⟩
    have : id t ≤ s.sup id := Finset.le_sup h
    simpa using Nat.lt_succ_of_le this

theorem toAscList_eq_nil_iff {s : ThreadSet} : s.toAscList = [] ↔ s = ∅ := by
  rw [List.eq_nil_iff_forall_not_mem, Finset.eq_empty_iff_forall_not_mem]
  constructor
  · exact fun h t ht => h t (mem_toAscList.mpr ht)
  · exact fun h t ht => h t (mem_toAscList.mp ht)

theorem minByKey_foldl_isSome (key : Nat → Nat × Nat) (l : List Nat) :
    ∀ acc : Option Nat, acc.isSome →
      (l.foldl
        (fun best t =>
          match best with
          | none => some t
          | some b => if lexLt (key t) (key b) then some t else some b)
        acc).isSome := by
  induction l with
  | nil => intro acc h; exact h
  | cons u l ih =>
    intro acc h
    rw [List.foldl_cons]
    apply ih
    match acc with
    | some b => cases hlt : lexLt (key u) (key b) <;> simp [hlt]

theorem minByKey_eq_none_iff (key : Nat → Nat × Nat) (l : List Nat) :
    minByKey key l = none ↔ l = [] := by
  cases l with
  | nil => simp [minByKey]
  | cons u l =>
    simp only [minByKey, List.foldl_cons]
    constructor
    · intro h
      have := minByKey_foldl_isSome key l (some u) rfl
      rw [h] at this
      simp at this
    · intro h
      exact absurd h (List.cons_ne_nil u l)

theorem minByKey_foldl_spec (key : Nat → Nat × Nat) (l : List Nat) :
    ∀ (acc : Option Nat) (t : Nat),
      l.foldl
        (fun best u =>
          match best with
          | none => some u
          | some b => if lexLt (key u) (key b) then some u else some b)
        acc = some t →
      (acc = some t ∨ t ∈ l) ∧ (∀ u ∈ l, lexLe (key t) (key u)) ∧
        (∀ b, acc = some b → lexLe (key t) (key b)) := by
  induction l with
  | nil =>
    intro acc t h
    simp only [List.foldl_nil] at h
    refine ⟨Or.inl h, by simp, ?_⟩
    intro b hb
    rw [hb] at h
    cases h
    exact lexLe_refl _
  | cons u l ih =>
    intro acc t h
    rw [List.foldl_cons] at h
    have hstep := ih _ t h
    have hu : lexLe (key t) (key u) := by
      match hacc : acc with
      | none =>
        simp only [hacc] at hstep
        exact hstep.2.2 u rfl
      | some b =>
        simp only [hacc] at hstep
        cases hlt : lexLt (key u) (key b) with
        | true =>
          simp only [hlt, if_pos rfl] at hstep
          exact hstep.2.2 u (by simp [hlt])
        | false =>
          have hb := hstep.2.2 b (by simp [hlt])
          exact lexLe_trans hb (lexLt_false_le hlt)
    refine ⟨?_, ?_, ?_⟩
    · match hacc : acc with
      | none =>
        simp only [hacc] at hstep
        rcases hstep.1 with h1 | h1
        · cases h1; exact Or.inr (List.mem_cons_self _ _)
        · exact Or.inr (List.mem_cons_of_mem _ h1)
      | some b =>
        simp only [hacc] at hstep
        cases hlt : lexLt (key u) (key b) with
        | true =>
          simp only [hlt, if_pos rfl] at hstep
          rcases hstep.1 with h1 | h1
          · cases h1; exact Or.inr (List.mem_cons_self _ _)
          · exact Or.inr (List.mem_cons_of_mem _ h1)
        | false =>
          rw [hlt, if_neg Bool.false_ne_true] at hstep
          rcases hstep.1 with h1 | h1
          · cases h1; exact Or.inl rfl
          · exact Or.inr (List.mem_cons_of_mem _ h1)
    · intro v hv
      rcases List.mem_cons.mp hv with hv | hv
      · cases hv; exact hu
      · exact hstep.2.1 v hv
    · intro b hb
      cases hb
      cases hlt : lexLt (key u) (key b) with
      | true => exact lexLe_trans hu (lexLt_true_le hlt)
      | false => exact hstep.2.2 b (by simp [hlt])

/-- C8 witness and the foldl-erase helper are shared with other claims. -/
theorem foldl_erase_all (p : Nat → Prop) [DecidablePred p] :
    ∀ (l : List Nat) (s : Finset ℕ), (∀ t ∈ l, p t) →
      l.foldl (fun s' t => if p t then s'.erase t else s') s = s \ l.toFinset := by
  intro l
  induction l with
  | nil => intro s _; simp
  | cons u l ih =>
    intro s h
    rw [List.foldl_cons, if_pos (h u (List.mem_cons_self _ _)),
      ih _ fun t ht => h t (List.mem_cons_of_mem _ ht)]
    rw [Finset.erase_eq, sdiff_sdiff]
    congr 1
    rw [List.toFinset_cons, Finset.insert_eq]
    simp

/-- Generic invariant scheme for the inner pop loop: `Q` is maintained by
continuing steps and turns into `R` at every exit. -/
theorem innerLoop_inv (pf : TransactionState → PreLockFilterAction)
    (mc nt tgt cap : Nat) (Q R : LoopState → Prop)
    (hnext : ∀ ls ls', innerLoopStep pf mc nt tgt cap ls = .ok (.next ls') →
      Q ls → Q ls')
    (hstop : ∀ ls ls', innerLoopStep pf mc nt tgt cap ls = .ok (.stop ls') →
      Q ls → R ls')
    (hbase : ∀ ls, Q ls → R ls) :
    ∀ fuel ls ls', innerLoop pf mc nt tgt cap fuel ls = .ok ls' → Q ls → R ls' := by
  intro fuel
  induction fuel with
  | zero =>
    intro ls ls' h hq
    cases h
    exact hbase _ hq
  | succ fuel ih =>
    intro ls ls' h hq
    rw [innerLoop] at h
    cases hstep : innerLoopStep pf mc nt tgt cap ls with
    | error e => exact Except.noConfusion (hstep ▸ h)
    | ok r =>
      simp only [hstep] at h
      cases r with
      | stop ls1 => cases h; exact hstop _ _ hstep hq
      | next ls1 => exact ih _ _ h (hnext _ _ hstep hq)

/-- Generic invariant scheme for the outer scan loop: `P` is maintained
by the inner loop (entered only below the scan cap) and by the
send-replenish-unblock step. -/
theorem outerLoop_inv (f : List Tx → List Bool)
    (pf : TransactionState → PreLockFilterAction) (mc nt tgt cap : Nat)
    (P : LoopState → Prop)
    (hinner : ∀ fuel ls ls', innerLoop pf mc nt tgt cap fuel ls = .ok ls' →
      P ls → ls.numScanned < cap → P ls')
    (hstep : ∀ ls ls', outerLoopStep f ls = .ok ls' → P ls → P ls') :
    ∀ fuel ls ls', outerLoop f pf mc nt tgt cap fuel ls = .ok ls' →
      P ls → P ls' := by
  intro fuel
  induction fuel with
  | zero =>
    intro ls ls' h hp
    cases h
    exact hp
  | succ fuel ih =>
    intro ls ls' h hp
    rw [outerLoop] at h
    by_cases hcap : cap ≤ ls.numScanned
    · rw [if_pos hcap] at h
      cases h
      exact hp
    · rw [if_neg hcap] at h
      by_cases hq : ls.sched.prioGraph.isEmptyQueue
      · rw [if_pos hq] at h
        cases h
        exact hp
      · rw [if_neg hq] at h
        cases hil : innerLoop pf mc nt tgt cap ls.sched.prioGraph.mainQueue.length ls with
        | error e => exact Except.noConfusion (by simpa only [hil] using h)
        | ok ls1 =>
          simp only [hil] at h
          cases hos : outerLoopStep f ls1 with
          | error e => exact Except.noConfusion (by simpa only [hos] using h)
          | ok ls2 =>
            simp only [hos] at h
            exact ih _ _ h
              (hstep _ _ hos (hinner _ _ _ hil hp (Nat.lt_of_not_le hcap)))

set_option maxHeartbeats 1000000 in
/-- Full case characterization of one inner-loop iteration, shared by
the loop-invariant proofs below. -/
theorem innerLoopStep_cases (pf : TransactionState → PreLockFilterAction)
    (mc nt tgt cap : Nat) (ls : LoopState) (res : InnerStep)
    (h : innerLoopStep pf mc nt tgt cap ls = .ok res) :
    (res = .stop ls ∧ ls.sched.prioGraph.pop = none) ∨
      (∃ id g' ts e blocking',
        ls.sched.prioGraph.pop = some (id, g') ∧
          ls.container.getTransactionState id.id = some ts ∧
          tryScheduleTransaction ts pf ls.blockingLocks ls.sched.accountLocks nt
            (fun threadSet =>
              selectThread threadSet ls.batches.totalCus
                ls.sched.inFlightTracker.cusInFlightPerThread
                ls.batches.transactions
                ls.sched.inFlightTracker.numInFlightPerThread) =
            .ok (.unschedulable e blocking') ∧
          (res = .stop (unschedState ls id g' blocking') ∨
            (res = .next (unschedState ls id g' blocking') ∧
              ls.numScanned + 1 < cap))) ∨
      ∃ id g' ts threadId transaction maxAge cost newState locks' ls3,
        ls.sched.prioGraph.pop = some (id, g') ∧
          ls.container.getTransactionState id.id = some ts ∧
          tryScheduleTransaction ts pf ls.blockingLocks ls.sched.accountLocks nt
            (fun threadSet =>
              selectThread threadSet ls.batches.totalCus
                ls.sched.inFlightTracker.cusInFlightPerThread
                ls.batches.transactions
                ls.sched.inFlightTracker.numInFlightPerThread) =
            .ok (.scheduled threadId transaction maxAge cost newState locks') ∧
          (ls3 = schedState ls id g' threadId transaction maxAge cost newState locks' ∨
            ∃ r,
              sendBatch
                  (schedState ls id g' threadId transaction maxAge cost newState
                    locks').sched
                  (schedState ls id g' threadId transaction maxAge cost newState
                    locks').batches threadId =
                .ok r ∧
                ls3 =
                  flushedState
                    (schedState ls id g' threadId transaction maxAge cost newState
                      locks') r) ∧
          (res = .stop ls3 ∨ res = .stop (cuRemovedState ls3 threadId) ∨
            ((res = .next ls3 ∨ res = .next (cuRemovedState ls3 threadId)) ∧
              ls.numScanned + 1 < cap)) := by
  simp only [innerLoopStep] at h
  split at h
  next hpop =>
    cases h
    exact Or.inl ⟨rfl, hpop⟩
  next id g' hpop =>
    split at h
    next hts => exact Except.noConfusion h
    next ts hts =>
      split at h
      next e htry => exact Except.noConfusion h
      next e blocking' htry =>
        split at h
        next hcap2 =>
          cases h
          exact Or.inr (Or.inl ⟨id, g', ts, e, blocking', hpop, hts, htry,
            Or.inl rfl⟩)
        next hcap2 =>
          cases h
          exact Or.inr (Or.inl ⟨id, g', ts, e, blocking', hpop, hts, htry,
            Or.inr ⟨rfl, by omega⟩⟩)
      next threadId transaction maxAge cost newState locks' htry =>
        split at h
        next e hflush => exact Except.noConfusion h
        next ls3 hflush =>
          have hls3 :
              ls3 = schedState ls id g' threadId transaction maxAge cost newState
                  locks' ∨
                ∃ r,
                  sendBatch
                      (schedState ls id g' threadId transaction maxAge cost newState
                        locks').sched
                      (schedState ls id g' threadId transaction maxAge cost newState
                        locks').batches threadId =
                    .ok r ∧
                    ls3 =
                      flushedState
                        (schedState ls id g' threadId transaction maxAge cost
                          newState locks') r := by
            split at hflush
            · split at hflush
              next e hsb => exact Except.noConfusion hflush
              next r hsb =>
                cases hflush
                exact Or.inr ⟨r, hsb, rfl⟩
            · cases hflush
              exact Or.inl rfl
          have hscanned3 : ls3.numScanned = ls.numScanned + 1 := by
            rcases hls3 with h3 | ⟨r, _, h3⟩ <;> subst h3 <;> rfl
          split at h
          next hcu =>
            split at h
            next hempty =>
              cases h
              exact Or.inr (Or.inr ⟨id, g', ts, threadId, transaction, maxAge,
                cost, newState, locks', ls3, hpop, hts, htry, hls3,
                Or.inr (Or.inl rfl)⟩)
            next hempty =>
              split at h
              next hcap3 =>
                cases h
                exact Or.inr (Or.inr ⟨id, g', ts, threadId, transaction, maxAge,
                  cost, newState, locks', ls3, hpop, hts, htry, hls3,
                  Or.inr (Or.inl rfl)⟩)
              next hcap3 =>
                cases h
                refine Or.inr (Or.inr ⟨id, g', ts, threadId, transaction, maxAge,
                  cost, newState, locks', ls3, hpop, hts, htry, hls3,
                  Or.inr (Or.inr ⟨Or.inr rfl, ?_⟩)⟩)
                have : (cuRemovedState ls3 threadId).numScanned = ls3.numScanned := rfl
                omega
          next hcu =>
            split at h
            next hcap3 =>
              cases h
              exact Or.inr (Or.inr ⟨id, g', ts, threadId, transaction, maxAge,
                cost, newState, locks', ls3, hpop, hts, htry, hls3, Or.inl rfl⟩)
            next hcap3 =>
              cases h
              refine Or.inr (Or.inr ⟨id, g', ts, threadId, transaction, maxAge,
                cost, newState, locks', ls3, hpop, hts, htry, hls3,
                Or.inr (Or.inr ⟨Or.inl rfl, ?_⟩)⟩)
              omega

@[simp] theorem unschedState_numScanned (ls : LoopState) (id : TransactionPriorityId)
    (g' : PrioGraph) (b : ReadWriteAccountSet) :
    (unschedState ls id g' b).numScanned = ls.numScanned + 1 := rfl

@[simp] theorem unschedState_numScheduled (ls : LoopState) (id : TransactionPriorityId)
    (g' : PrioGraph) (b : ReadWriteAccountSet) :
    (unschedState ls id g' b).numScheduled = ls.numScheduled := rfl

@[simp] theorem unschedState_numUnschedulable (ls : LoopState)
    (id : TransactionPriorityId) (g' : PrioGraph) (b : ReadWriteAccountSet) :
    (unschedState ls id g' b).numUnschedulable = ls.numUnschedulable + 1 := rfl

@[simp] theorem schedState_numScanned (ls : LoopState) (id : TransactionPriorityId)
    (g' : PrioGraph) (t : ThreadId) (tx : Tx) (ma c : Nat)
    (ns : TransactionState) (lk : ThreadAwareAccountLocks) :
    (schedState ls id g' t tx ma c ns lk).numScanned = ls.numScanned + 1 := rfl

@[simp] theorem schedState_numScheduled (ls : LoopState) (id : TransactionPriorityId)
    (g' : PrioGraph) (t : ThreadId) (tx : Tx) (ma c : Nat)
    (ns : TransactionState) (lk : ThreadAwareAccountLocks) :
    (schedState ls id g' t tx ma c ns lk).numScheduled = ls.numScheduled + 1 := rfl

@[simp] theorem schedState_numUnschedulable (ls : LoopState)
    (id : TransactionPriorityId) (g' : PrioGraph) (t : ThreadId) (tx : Tx)
    (ma c : Nat) (ns : TransactionState) (lk : ThreadAwareAccountLocks) :
    (schedState ls id g' t tx ma c ns lk).numUnschedulable =
      ls.numUnschedulable := rfl

@[simp] theorem flushedState_numScanned (ls2 : LoopState)
    (r : Nat × Sched × Batches) :
    (flushedState ls2 r).numScanned = ls2.numScanned := rfl

@[simp] theorem flushedState_numScheduled (ls2 : LoopState)
    (r : Nat × Sched × Batches) :
    (flushedState ls2 r).numScheduled = ls2.numScheduled := rfl

@[simp] theorem flushedState_numUnschedulable (ls2 : LoopState)
    (r : Nat × Sched × Batches) :
    (flushedState ls2 r).numUnschedulable = ls2.numUnschedulable := rfl

@[simp] theorem cuRemovedState_numScanned (ls3 : LoopState) (t : ThreadId) :
    (cuRemovedState ls3 t).numScanned = ls3.numScanned := rfl

@[simp] theorem cuRemovedState_numScheduled (ls3 : LoopState) (t : ThreadId) :
    (cuRemovedState ls3 t).numScheduled = ls3.numScheduled := rfl

@[simp] theorem cuRemovedState_numUnschedulable (ls3 : LoopState) (t : ThreadId) :
    (cuRemovedState ls3 t).numUnschedulable = ls3.numUnschedulable := rfl

/-- Counter bookkeeping over a full run of the inner loop: every pop
raises the scan count and settles exactly one transaction, and the scan
count never passes the cap. -/
theorem innerLoop_c3 (pf : TransactionState → PreLockFilterAction)
    (mc nt tgt cap : Nat) (fuel : Nat) (ls ls' : LoopState)
    (h : innerLoop pf mc nt tgt cap fuel ls = .ok ls')
    (hq : ls.numScheduled + ls.numUnschedulable ≤ ls.numScanned ∧
      ls.numScanned < cap) :
    ls'.numScheduled + ls'.numUnschedulable ≤ ls'.numScanned ∧
      ls'.numScanned ≤ cap := by
  refine innerLoop_inv pf mc nt tgt cap
    (fun ls => ls.numScheduled + ls.numUnschedulable ≤ ls.numScanned ∧
      ls.numScanned < cap)
    (fun ls => ls.numScheduled + ls.numUnschedulable ≤ ls.numScanned ∧
      ls.numScanned ≤ cap)
    ?_ ?_ (fun ls h => ⟨h.1, Nat.le_of_lt h.2⟩) fuel ls ls' h hq
  · intro ls ls' hstep hq
    rcases innerLoopStep_cases _ _ _ _ _ _ _ hstep with
      ⟨he, _⟩ | ⟨id, g', ts, e, b', _, _, _, hres⟩ |
      ⟨id, g', ts, t, tx, ma, c, ns, lk, ls3, _, _, _, hls3, hres⟩
    · cases he
    · rcases hres with he | ⟨he, hlt⟩
      · cases he
      · cases he
        simp
        omega
    · have h3 : ls3.numScanned = ls.numScanned + 1 ∧
          ls3.numScheduled = ls.numScheduled + 1 ∧
          ls3.numUnschedulable = ls.numUnschedulable := by
        rcases hls3 with h3 | ⟨r, _, h3⟩ <;> subst h3 <;> simp
      rcases hres with he | he | ⟨he | he, hlt⟩
      · cases he
      · cases he
      · cases he
        omega
      · cases he
        simp
        omega
  · intro ls ls' hstep hq
    rcases innerLoopStep_cases _ _ _ _ _ _ _ hstep with
      ⟨he, _⟩ | ⟨id, g', ts, e, b', _, _, _, hres⟩ |
      ⟨id, g', ts, t, tx, ma, c, ns, lk, ls3, _, _, _, hls3, hres⟩
    · cases he
      exact ⟨hq.1, Nat.le_of_lt hq.2⟩
    · rcases hres with he | ⟨he, hlt⟩
      · cases he
        simp
        omega
      · cases he
    · have h3 : ls3.numScanned = ls.numScanned + 1 ∧
          ls3.numScheduled = ls.numScheduled + 1 ∧
          ls3.numUnschedulable = ls.numUnschedulable := by
        rcases hls3 with h3 | ⟨r, _, h3⟩ <;> subst h3 <;> simp
      rcases hres with he | he | ⟨he | he, hlt⟩
      · cases he
        omega
      · cases he
        simp
        omega
      · cases he
      · cases he

/-- The send-replenish-unblock step leaves the three counters alone. -/
theorem outerLoopStep_counts (f : List Tx → List Bool) (ls ls' : LoopState)
    (h : outerLoopStep f ls = .ok ls') :
    ls'.numScanned = ls.numScanned ∧ ls'.numScheduled = ls.numScheduled ∧
      ls'.numUnschedulable = ls.numUnschedulable := by
  simp only [outerLoopStep] at h
  split at h
  next e hsb => exact Except.noConfusion h
  next r hsb =>
    split at h
    next e hcp => exact Except.noConfusion h
    next cp hcp =>
      cases h
      exact ⟨rfl, rfl, rfl⟩

@[simp] theorem modifyAt_length {α : Type} (f : α → α) :
    ∀ (t : Nat) (l : List α), (modifyAt f t l).length = l.length := by
  intro t
  induction t with
  | zero => intro l; cases l <;> rfl
  | succ t ih => intro l; cases l with
    | nil => rfl
    | cons x xs => simp [modifyAt, ih]

theorem modifyAt_oob {α : Type} (f : α → α) :
    ∀ (t : Nat) (l : List α), l.length ≤ t → modifyAt f t l = l := by
  intro t
  induction t with
  | zero => intro l h; cases l with
    | nil => rfl
    | cons x xs => simp at h
  | succ t ih => intro l h; cases l with
    | nil => rfl
    | cons x xs => simp only [modifyAt]; rw [ih]; simpa using h

theorem getD_modifyAt_ne {α : Type} (f : α → α) (d : α) :
    ∀ (t u : Nat) (l : List α), u ≠ t →
      (modifyAt f t l).getD u d = l.getD u d := by
  intro t
  induction t with
  | zero =>
    intro u l hu
    cases l with
    | nil => rfl
    | cons x xs => cases u with
      | zero => exact absurd rfl hu
      | succ u => simp [modifyAt]
  | succ t ih =>
    intro u l hu
    cases l with
    | nil => rfl
    | cons x xs => cases u with
      | zero => simp [modifyAt]
      | succ u => simpa [modifyAt] using ih u xs (by omega)

theorem getD_modifyAt_self {α : Type} (f : α → α) (d : α) :
    ∀ (t : Nat) (l : List α), t < l.length →
      (modifyAt f t l).getD t d = f (l.getD t d) := by
  intro t
  induction t with
  | zero =>
    intro l ht
    cases l with
    | nil => simp at ht
    | cons x xs => rfl
  | succ t ih =>
    intro l ht
    cases l with
    | nil => simp at ht
    | cons x xs => simpa [modifyAt] using ih xs (by simpa using ht)

theorem getD_oob {α : Type} (d : α) :
    ∀ (t : Nat) (l : List α), l.length ≤ t → l.getD t d = d := by
  intro t
  induction t with
  | zero => intro l h; cases l with
    | nil => rfl
    | cons x xs => simp at h
  | succ t ih => intro l h; cases l with
    | nil => rfl
    | cons x xs => simpa using ih xs (by simpa using h)

theorem foldl_add_length {α : Type} :
    ∀ (l : List (List α)) (n : Nat),
      l.foldl (fun a xs => a + xs.length) n = n + (l.map List.length).sum := by
  intro l
  induction l with
  | nil => intro n; simp
  | cons x xs ih => intro n; simp [ih]; omega

theorem batchTotal_eq_sum (b : Batches) :
    batchTotal b = (b.ids.map List.length).sum := by
  simp [batchTotal, foldl_add_length]

theorem sum_map_modifyAt {α : Type} (m : α → Nat) (g : α → α) (d : α) :
    ∀ (t : Nat) (l : List α), t < l.length →
      ((modifyAt g t l).map m).sum + m (l.getD t d) =
        (l.map m).sum + m (g (l.getD t d)) := by
  intro t
  induction t with
  | zero =>
    intro l ht
    cases l with
    | nil => simp at ht
    | cons x xs =>
      simp only [modifyAt, List.map_cons, List.sum_cons, List.getD_cons_zero]
      omega
  | succ t ih =>
    intro l ht
    cases l with
    | nil => simp at ht
    | cons x xs =>
      have hih := ih xs (by simpa using ht)
      simp only [modifyAt, List.map_cons, List.sum_cons, List.getD_cons_succ]
      omega

theorem sum_zero_of_all_empty {α : Type} :
    ∀ (l : List (List α)), (∀ t, t < l.length → l.getD t [] = []) →
      (l.map List.length).sum = 0 := by
  intro l
  induction l with
  | nil => intro _; rfl
  | cons x xs ih =>
    intro h
    have hx : x = [] := h 0 (by simp)
    have := ih fun t ht => h (t + 1) (by simpa using ht)
    simp [hx, this]

/-- The selector of `select_thread` only picks members of its set. -/
theorem selectThread_mem (s : ThreadSet) (bc ic : List Nat)
    (bt : List (List Tx)) (it : List Nat) (t : ThreadId)
    (h : selectThread s bc ic bt it = some t) : t ∈ s := by
  have hspec := minByKey_foldl_spec (selectThreadKey bc ic bt it)
    s.toAscList none t (by simpa [selectThread, minByKey] using h)
  exact mem_toAscList.mp (hspec.1.resolve_left (by simp))

/-- A successful `try_lock_accounts` returns a thread picked inside
`allowed_threads`. -/
theorem tryLockAccounts_ok_mem (tal : ThreadAwareAccountLocks)
    (w r : List Pubkey) (allowed : ThreadSet)
    (sel : ThreadSet → Option ThreadId) (t : ThreadId)
    (l' : ThreadAwareAccountLocks)
    (hsel : ∀ s u, sel s = some u → u ∈ s)
    (h : tal.tryLockAccounts w r allowed sel = .ok (.ok (t, l'))) :
    t ∈ allowed := by
  simp only [ThreadAwareAccountLocks.tryLockAccounts] at h
  split at h
  · simp at h
  · split at h
    · simp at h
    · split at h
      next hnone => exact Except.noConfusion h
      next u hu =>
        cases h
        exact (Finset.mem_inter.mp (hsel _ _ hu)).2

/-- A scheduled transaction lands on a thread below `num_threads`. -/
theorem tryScheduleTransaction_ok_thread_lt (ts : TransactionState)
    (pf : TransactionState → PreLockFilterAction)
    (bl : ReadWriteAccountSet) (al : ThreadAwareAccountLocks) (nt : Nat)
    (sel : ThreadSet → Option ThreadId) (t : ThreadId) (tx : Tx)
    (ma c : Nat) (ns : TransactionState) (lk : ThreadAwareAccountLocks)
    (hsel : ∀ s u, sel s = some u → u ∈ s)
    (h : tryScheduleTransaction ts pf bl al nt sel =
      .ok (.scheduled t tx ma c ns lk)) : t < nt := by
  simp only [tryScheduleTransaction] at h
  split at h
  next httl => exact Except.noConfusion h
  next ttl httl =>
    split at h
    · simp at h
    · split at h
      · exact Except.noConfusion h
      · simp at h
      · simp at h
      next t' lk' htl =>
        split at h
        · exact Except.noConfusion h
        next p hp =>
          cases h
          have := tryLockAccounts_ok_mem al _ _ _ _ _ _ hsel htl
          simpa [ThreadSet.any] using this

/-- Outcome shapes of `send_batch`. -/
theorem sendBatch_cases (sched : Sched) (batches : Batches) (t : Nat)
    (r : Nat × Sched × Batches) (h : sendBatch sched batches t = .ok r) :
    ((batches.ids.getD t []).isEmpty = true ∧ r = (0, sched, batches)) ∨
      ((batches.ids.getD t []).isEmpty = false ∧
        ∃ msgs, sched.consumeWorkSenders.getD t none = some msgs ∧
          r = ((batches.ids.getD t []).length,
            { sched with
                inFlightTracker := (sched.inFlightTracker.trackBatch
                  (batches.ids.getD t []).length (batches.totalCus.getD t 0) t).2
                consumeWorkSenders := sched.consumeWorkSenders.set t
                  (some (msgs ++
                    [{ batchId := (sched.inFlightTracker.trackBatch
                        (batches.ids.getD t []).length
                        (batches.totalCus.getD t 0) t).1
                       ids := batches.ids.getD t []
                       transactions := batches.transactions.getD t []
                       maxAges := batches.maxAges.getD t [] }])) },
            (batches.takeBatch t).2)) := by
  simp only [sendBatch] at h
  split at h
  next he =>
    cases h
    exact Or.inl ⟨he, rfl⟩
  next he =>
    split at h
    next hch => exact Except.noConfusion h
    next msgs hch =>
      cases h
      exact Or.inr ⟨by simpa using he, msgs, hch, rfl⟩

/-- Entrywise effect of `send_batch` on the batch accumulators. -/
theorem sendBatch_ids_getD (sched : Sched) (batches : Batches) (t : Nat)
    (r : Nat × Sched × Batches) (h : sendBatch sched batches t = .ok r) :
    ∀ u, r.2.2.ids.getD u [] = if u = t then [] else batches.ids.getD u [] := by
  intro u
  rcases sendBatch_cases sched batches t r h with ⟨he, hr⟩ | ⟨he, msgs, hch, hr⟩
  · subst hr
    by_cases hu : u = t
    · subst hu
      simpa [List.isEmpty_iff] using he
    · simp [hu]
  · subst hr
    by_cases hu : u = t
    · subst hu
      have hlt : u < batches.ids.length := by
        by_contra hge
        rw [getD_oob _ _ _ (Nat.le_of_not_lt hge)] at he
        simp at he
      simp only [Batches.takeBatch]
      rw [getD_modifyAt_self _ _ _ _ hlt]
      simp
    · simp only [Batches.takeBatch]
      rw [getD_modifyAt_ne _ _ _ _ _ hu]
      simp [hu]

/-- Conservation of ids through `send_batch`: what is sent leaves the
accumulator. -/
theorem sendBatch_total (sched : Sched) (batches : Batches) (t : Nat)
    (r : Nat × Sched × Batches) (h : sendBatch sched batches t = .ok r) :
    r.1 + batchTotal r.2.2 = batchTotal batches ∧
      r.2.2.ids.length = batches.ids.length ∧
      r.2.1.consumeWorkSenders.length = sched.consumeWorkSenders.length := by
  rcases sendBatch_cases sched batches t r h with ⟨he, hr⟩ | ⟨he, msgs, hch, hr⟩
  · subst hr; simp
  · subst hr
    have hlt : t < batches.ids.length := by
      by_contra hge
      rw [getD_oob _ _ _ (Nat.le_of_not_lt hge)] at he
      simp at he
    refine ⟨?_, by simp [Batches.takeBatch], by simp⟩
    have := sum_map_modifyAt List.length (fun _ => ([] : List TransactionId))
      [] t batches.ids hlt
    simp only [batchTotal_eq_sum]
    simp [Batches.takeBatch] at *
    omega

/-- Conservation and draining of ids through the `send_batches` fold. -/
theorem sendBatchesAux_spec :
    ∀ (l : List Nat) (acc r : Nat × Sched × Batches),
      (l.foldlM
        (fun acc threadIndex => do
          let r ← sendBatch acc.2.1 acc.2.2 threadIndex
          .ok (acc.1 + r.1, r.2.1, r.2.2)) acc :
          Except RunError (Nat × Sched × Batches)) = .ok r →
      r.1 + batchTotal r.2.2 = acc.1 + batchTotal acc.2.2 ∧
        r.2.2.ids.length = acc.2.2.ids.length ∧
        r.2.1.consumeWorkSenders.length = acc.2.1.consumeWorkSenders.length ∧
        (∀ u, acc.2.2.ids.getD u [] = [] → r.2.2.ids.getD u [] = []) ∧
        ∀ t ∈ l, r.2.2.ids.getD t [] = [] := by
  intro l
  induction l with
  | nil =>
    intro acc r h
    cases h
    exact ⟨rfl, rfl, rfl, fun u hu => hu, by simp⟩
  | cons t l ih =>
    intro acc r h
    rw [List.foldlM_cons] at h
    cases hsb : sendBatch acc.2.1 acc.2.2 t with
    | error e => rw [hsb] at h; exact Except.noConfusion h
    | ok r1 =>
      rw [hsb] at h
      simp only [bind, Except.bind] at h
      have hrec := ih _ _ h
      have htot := sendBatch_total _ _ _ _ hsb
      have hget := sendBatch_ids_getD _ _ _ _ hsb
      refine ⟨by simp at hrec ⊢; omega, by simp at hrec ⊢; omega,
        by simp at hrec ⊢; omega, ?_, ?_⟩
      · intro u hu
        apply hrec.2.2.2.1
        rw [hget u]
        by_cases huu : u = t
        · simp [huu]
        · simpa [huu] using hu
      · intro u hu
        rcases List.mem_cons.mp hu with hu | hu
        · subst hu
          apply hrec.2.2.2.1
          rw [hget _]
          simp
        · exact hrec.2.2.2.2 u hu

@[simp] theorem unschedState_batches (ls : LoopState) (id : TransactionPriorityId)
    (g' : PrioGraph) (b : ReadWriteAccountSet) :
    (unschedState ls id g' b).batches = ls.batches := rfl

@[simp] theorem unschedState_numSent (ls : LoopState) (id : TransactionPriorityId)
    (g' : PrioGraph) (b : ReadWriteAccountSet) :
    (unschedState ls id g' b).numSent = ls.numSent := rfl

@[simp] theorem unschedState_senders (ls : LoopState) (id : TransactionPriorityId)
    (g' : PrioGraph) (b : ReadWriteAccountSet) :
    (unschedState ls id g' b).sched.consumeWorkSenders =
      ls.sched.consumeWorkSenders := rfl

@[simp] theorem schedState_numSent (ls : LoopState) (id : TransactionPriorityId)
    (g' : PrioGraph) (t : ThreadId) (tx : Tx) (ma c : Nat)
    (ns : TransactionState) (lk : ThreadAwareAccountLocks) :
    (schedState ls id g' t tx ma c ns lk).numSent = ls.numSent := rfl

@[simp] theorem schedState_senders (ls : LoopState) (id : TransactionPriorityId)
    (g' : PrioGraph) (t : ThreadId) (tx : Tx) (ma c : Nat)
    (ns : TransactionState) (lk : ThreadAwareAccountLocks) :
    (schedState ls id g' t tx ma c ns lk).sched.consumeWorkSenders =
      ls.sched.consumeWorkSenders := rfl

@[simp] theorem schedState_batches_ids (ls : LoopState) (id : TransactionPriorityId)
    (g' : PrioGraph) (t : ThreadId) (tx : Tx) (ma c : Nat)
    (ns : TransactionState) (lk : ThreadAwareAccountLocks) :
    (schedState ls id g' t tx ma c ns lk).batches.ids =
      modifyAt (· ++ [id.id]) t ls.batches.ids := rfl

@[simp] theorem flushedState_numSent (ls2 : LoopState) (r : Nat × Sched × Batches) :
    (flushedState ls2 r).numSent = ls2.numSent + r.1 := rfl

@[simp] theorem flushedState_batches (ls2 : LoopState) (r : Nat × Sched × Batches) :
    (flushedState ls2 r).batches = r.2.2 := rfl

@[simp] theorem flushedState_sched (ls2 : LoopState) (r : Nat × Sched × Batches) :
    (flushedState ls2 r).sched = r.2.1 := rfl

@[simp] theorem cuRemovedState_numSent (ls3 : LoopState) (t : ThreadId) :
    (cuRemovedState ls3 t).numSent = ls3.numSent := rfl

@[simp] theorem cuRemovedState_batches (ls3 : LoopState) (t : ThreadId) :
    (cuRemovedState ls3 t).batches = ls3.batches := rfl

@[simp] theorem cuRemovedState_sched (ls3 : LoopState) (t : ThreadId) :
    (cuRemovedState ls3 t).sched = ls3.sched := rfl

theorem sum_length_modifyAt_append {α : Type} (x : α) (t : Nat)
    (l : List (List α)) (ht : t < l.length) :
    ((modifyAt (· ++ [x]) t l).map List.length).sum =
      (l.map List.length).sum + 1 := by
  have h := sum_map_modifyAt List.length (· ++ [x]) [] t l ht
  simp only [List.length_append, List.length_cons, List.length_nil] at h
  omega

/-- Conservation of ids along a full run of the inner loop: scheduled
transactions are either still in a batch accumulator or already counted
as sent. -/
theorem innerLoop_c4 (pf : TransactionState → PreLockFilterAction)
    (mc nt tgt cap : Nat) (fuel : Nat) (ls ls' : LoopState)
    (h : innerLoop pf mc nt tgt cap fuel ls = .ok ls')
    (hq : ls.numScheduled = ls.numSent + batchTotal ls.batches ∧
      ls.batches.ids.length = nt ∧
      ls.sched.consumeWorkSenders.length = nt) :
    ls'.numScheduled = ls'.numSent + batchTotal ls'.batches ∧
      ls'.batches.ids.length = nt ∧
      ls'.sched.consumeWorkSenders.length = nt := by
  have hstep : ∀ ls ls1,
      (innerLoopStep pf mc nt tgt cap ls = .ok (.next ls1) ∨
        innerLoopStep pf mc nt tgt cap ls = .ok (.stop ls1)) →
      (ls.numScheduled = ls.numSent + batchTotal ls.batches ∧
        ls.batches.ids.length = nt ∧
        ls.sched.consumeWorkSenders.length = nt) →
      ls1.numScheduled = ls1.numSent + batchTotal ls1.batches ∧
        ls1.batches.ids.length = nt ∧
        ls1.sched.consumeWorkSenders.length = nt := by
    intro ls ls1 hs hq
    have hcases : innerLoopStep pf mc nt tgt cap ls = .ok (.next ls1) ∨
        innerLoopStep pf mc nt tgt cap ls = .ok (.stop ls1) := hs
    rcases hcases with hs | hs <;>
    · rcases innerLoopStep_cases _ _ _ _ _ _ _ hs with
        ⟨he, _⟩ | ⟨id, g', ts, e, b', _, _, _, hres⟩ |
        ⟨id, g', ts, t, tx, ma, c, ns, lk, ls3, _, _, htry, hls3, hres⟩
      · cases he <;> exact hq
      · rcases hres with he | ⟨he, _⟩ <;> cases he <;>
          simpa [batchTotal_eq_sum] using hq
      · have htlt : t < nt := tryScheduleTransaction_ok_thread_lt _ _ _ _ _ _
          _ _ _ _ _ _ (fun s u hu => selectThread_mem _ _ _ _ _ _ hu) htry
        have h3 : ls3.numScheduled = ls3.numSent + batchTotal ls3.batches ∧
            ls3.batches.ids.length = nt ∧
            ls3.sched.consumeWorkSenders.length = nt := by
          rcases hls3 with h3 | ⟨r, hsb, h3⟩
          · subst h3
            have := sum_length_modifyAt_append id.id t ls.batches.ids
              (by rw [hq.2.1]; exact htlt)
            refine ⟨?_, by simpa using hq.2.1, by simpa using hq.2.2⟩
            simp only [batchTotal_eq_sum] at hq ⊢
            simp [this]
            omega
          · have htot := sendBatch_total _ _ _ _ hsb
            have happ := sum_length_modifyAt_append id.id t ls.batches.ids
              (by rw [hq.2.1]; exact htlt)
            subst h3
            refine ⟨?_, ?_, ?_⟩
            · simp only [batchTotal_eq_sum] at hq htot ⊢
              simp only [flushedState_numSent, flushedState_batches,
                flushedState_numScheduled, schedState_numScheduled,
                schedState_numSent, schedState_batches_ids] at *
              simp [happ] at htot
              omega
            · simp only [flushedState_batches]
              have := htot.2.1
              simpa [hq.2.1] using this
            · simp only [flushedState_sched]
              have := htot.2.2
              simpa [hq.2.2] using this
        rcases hres with he | he | ⟨he | he, _⟩ <;> cases he <;>
          simpa [batchTotal_eq_sum] using h3
  refine innerLoop_inv pf mc nt tgt cap
    (fun ls => ls.numScheduled = ls.numSent + batchTotal ls.batches ∧
      ls.batches.ids.length = nt ∧ ls.sched.consumeWorkSenders.length = nt)
    (fun ls => ls.numScheduled = ls.numSent + batchTotal ls.batches ∧
      ls.batches.ids.length = nt ∧ ls.sched.consumeWorkSenders.length = nt)
    (fun ls ls1 hs hq => hstep ls ls1 (Or.inl hs) hq)
    (fun ls ls1 hs hq => hstep ls ls1 (Or.inr hs) hq)
    (fun ls hq => hq) fuel ls ls' h hq

/-- The send-replenish-unblock step keeps the conservation invariant. -/
theorem outerLoopStep_c4 (f : List Tx → List Bool) (nt : Nat) (ls ls' : LoopState)
    (h : outerLoopStep f ls = .ok ls')
    (hq : ls.numScheduled = ls.numSent + batchTotal ls.batches ∧
      ls.batches.ids.length = nt ∧
      ls.sched.consumeWorkSenders.length = nt) :
    ls'.numScheduled = ls'.numSent + batchTotal ls'.batches ∧
      ls'.batches.ids.length = nt ∧
      ls'.sched.consumeWorkSenders.length = nt := by
  simp only [outerLoopStep, sendBatches] at h
  split at h
  next e hsb => exact Except.noConfusion h
  next r hsb =>
    have hfold := sendBatchesAux_spec _ _ _ hsb
    split at h
    next e hcp => exact Except.noConfusion h
    next cp hcp =>
      cases h
      simp only at *
      refine ⟨?_, ?_, ?_⟩
      · simp only [batchTotal_eq_sum] at *
        omega
      · omega
      · omega
/-- No error produced anywhere in a pass carries the final assertion's
panic message: that message is minted only at the assertion itself. -/
def benign (e : RunError) : Prop :=
  e ≠ RunError.panicked "number of scheduled and sent transactions must match"

theorem applyFilterResults_err :
    ∀ (l : List (TransactionPriorityId × Bool)) (c : Container) (g : PrioGraph)
      (nf : Nat) (e : RunError),
      applyFilterResults c g l nf = .error e → benign e := by
  intro l
  induction l with
  | nil => intro c g nf e h; exact Except.noConfusion h
  | cons p l ih =>
    intro c g nf e h
    rcases p with ⟨id, b⟩
    simp only [applyFilterResults] at h
    split at h
    · split at h
      · cases h; simp [benign]
      · exact ih _ _ _ _ h
    · exact ih _ _ _ _ h

theorem chunkedPopsAux_err (f : List Tx → List Bool) :
    ∀ (fuel : Nat) (c : Container) (g : PrioGraph) (b nf : Nat) (e : RunError),
      chunkedPopsAux f fuel c g b nf = .error e → benign e := by
  intro fuel
  induction fuel with
  | zero => intro c g b nf e h; exact Except.noConfusion h
  | succ fuel ih =>
    intro c g b nf e h
    simp only [chunkedPopsAux] at h
    split at h
    · exact Except.noConfusion h
    · split at h
      · cases h; simp [benign]
      · split at h
        next e' happ =>
          cases h
          exact applyFilterResults_err _ _ _ _ _ happ
        next r happ =>
          split at h
          · exact Except.noConfusion h
          · exact ih _ _ _ _ _ h

theorem chunkedPops_err (f : List Tx → List Bool) (c : Container) (g : PrioGraph)
    (b nf : Nat) (e : RunError) (h : chunkedPops f c g b nf = .error e) :
    benign e :=
  chunkedPopsAux_err f _ _ _ _ _ _ h

theorem tryLockAccounts_err (tal : ThreadAwareAccountLocks) (w r : List Pubkey)
    (allowed : ThreadSet) (sel : ThreadSet → Option ThreadId) (e : RunError)
    (h : tal.tryLockAccounts w r allowed sel = .error e) : benign e := by
  simp only [ThreadAwareAccountLocks.tryLockAccounts] at h
  split at h
  · exact Except.noConfusion h
  · split at h
    · exact Except.noConfusion h
    · split at h
      · cases h; simp [benign]
      · exact Except.noConfusion h

theorem tryScheduleTransaction_err (ts : TransactionState)
    (pf : TransactionState → PreLockFilterAction) (bl : ReadWriteAccountSet)
    (al : ThreadAwareAccountLocks) (nt : Nat)
    (sel : ThreadSet → Option ThreadId) (e : RunError)
    (h : tryScheduleTransaction ts pf bl al nt sel = .error e) : benign e := by
  simp only [tryScheduleTransaction] at h
  split at h
  · cases h; simp [benign]
  · split at h
    · exact Except.noConfusion h
    · split at h
      next e' htl => cases h; exact tryLockAccounts_err _ _ _ _ _ _ htl
      · exact Except.noConfusion h
      · exact Except.noConfusion h
      · split at h
        · cases h; simp [benign]
        · exact Except.noConfusion h

theorem sendBatch_err (sched : Sched) (batches : Batches) (t : Nat) (e : RunError)
    (h : sendBatch sched batches t = .error e) : benign e := by
  simp only [sendBatch] at h
  split at h
  · exact Except.noConfusion h
  · split at h
    · cases h; simp [benign]
    · exact Except.noConfusion h

theorem sendBatchesFold_err :
    ∀ (l : List Nat) (acc : Nat × Sched × Batches) (e : RunError),
      (l.foldlM
        (fun acc threadIndex => do
          let r ← sendBatch acc.2.1 acc.2.2 threadIndex
          .ok (acc.1 + r.1, r.2.1, r.2.2)) acc :
          Except RunError (Nat × Sched × Batches)) = .error e → benign e := by
  intro l
  induction l with
  | nil => intro acc e h; exact Except.noConfusion h
  | cons t l ih =>
    intro acc e h
    rw [List.foldlM_cons] at h
    cases hsb : sendBatch acc.2.1 acc.2.2 t with
    | error e' =>
      rw [hsb] at h
      simp only [bind, Except.bind] at h
      cases h
      exact sendBatch_err _ _ _ _ hsb
    | ok r =>
      rw [hsb] at h
      simp only [bind, Except.bind] at h
      exact ih _ _ h

theorem sendBatches_err (sched : Sched) (batches : Batches) (e : RunError)
    (h : sendBatches sched batches = .error e) : benign e :=
  sendBatchesFold_err _ _ _ h

theorem innerLoopStep_err (pf : TransactionState → PreLockFilterAction)
    (mc nt tgt cap : Nat) (ls : LoopState) (e : RunError)
    (h : innerLoopStep pf mc nt tgt cap ls = .error e) : benign e := by
  simp only [innerLoopStep] at h
  split at h
  · exact Except.noConfusion h
  · split at h
    · cases h; simp [benign]
    · split at h
      next e' htry => cases h; exact tryScheduleTransaction_err _ _ _ _ _ _ _ htry
      · split at h
        · exact Except.noConfusion h
        · exact Except.noConfusion h
      · split at h
        next e' hflush =>
          cases h
          split at hflush
          · split at hflush
            next e'' hsb =>
              cases hflush
              exact sendBatch_err _ _ _ _ hsb
            next r hsb => exact Except.noConfusion hflush
          · exact Except.noConfusion hflush
        next ls3 hflush =>
          split at h
          · split at h
            · exact Except.noConfusion h
            · split at h
              · exact Except.noConfusion h
              · exact Except.noConfusion h
          · split at h
            · exact Except.noConfusion h
            · exact Except.noConfusion h

theorem innerLoop_err (pf : TransactionState → PreLockFilterAction)
    (mc nt tgt cap : Nat) :
    ∀ (fuel : Nat) (ls : LoopState) (e : RunError),
      innerLoop pf mc nt tgt cap fuel ls = .error e → benign e := by
  intro fuel
  induction fuel with
  | zero => intro ls e h; exact Except.noConfusion h
  | succ fuel ih =>
    intro ls e h
    rw [innerLoop] at h
    cases hstep : innerLoopStep pf mc nt tgt cap ls with
    | error e' =>
      rw [hstep] at h
      cases h
      exact innerLoopStep_err _ _ _ _ _ _ _ hstep
    | ok r =>
      simp only [hstep] at h
      cases r with
      | stop ls1 => exact Except.noConfusion h
      | next ls1 => exact ih _ _ h

theorem outerLoopStep_err (f : List Tx → List Bool) (ls : LoopState)
    (e : RunError) (h : outerLoopStep f ls = .error e) : benign e := by
  simp only [outerLoopStep] at h
  split at h
  next e' hsb => cases h; exact sendBatches_err _ _ _ hsb
  next r hsb =>
    split at h
    next e' hcp => cases h; exact chunkedPops_err _ _ _ _ _ _ hcp
    next cp hcp => exact Except.noConfusion h

theorem outerLoop_err (f : List Tx → List Bool)
    (pf : TransactionState → PreLockFilterAction) (mc nt tgt cap : Nat) :
    ∀ (fuel : Nat) (ls : LoopState) (e : RunError),
      outerLoop f pf mc nt tgt cap fuel ls = .error e → benign e := by
  intro fuel
  induction fuel with
  | zero => intro ls e h; exact Except.noConfusion h
  | succ fuel ih =>
    intro ls e h
    rw [outerLoop] at h
    split at h
    · exact Except.noConfusion h
    · split at h
      · exact Except.noConfusion h
      · split at h
        next e' hil => cases h; exact innerLoop_err _ _ _ _ _ _ _ _ hil
        next ls1 hil =>
          split at h
          next e' hos => cases h; exact outerLoopStep_err _ _ _ hos
          next ls2 hos => exact ih _ _ h

theorem batchTotal_new (n : Nat) : batchTotal (Batches.new n) = 0 := by
  simp [Batches.new, batchTotal_eq_sum, List.map_replicate]

/-- C4: in every pass, `num_scheduled` equals `num_sent` once the final
flush has run, so the closing assertion of `schedule` never fires: every
scheduled transaction is either flushed when its thread's batch reaches
the target size or by the final `send_batches` calls. -/
theorem c4_scheduled_eq_sent (sched : Sched) (container : Container)
    (f : List Tx → List Bool) (pf : TransactionState → PreLockFilterAction) :
    schedule sched container f pf ≠
      .error (.panicked "number of scheduled and sent transactions must match") := by
  intro h
  simp only [schedule] at h
  split at h
  next => simp at h
  next h0 =>
    split at h
    next hempty => exact Except.noConfusion h
    next hempty =>
      split at h
      next e hcp => cases h; exact chunkedPops_err _ _ _ _ _ _ hcp rfl
      next cp hcp =>
        split at h
        next e hout => cases h; exact outerLoop_err _ _ _ _ _ _ _ _ _ hout rfl
        next ls hout =>
          split at h
          next e hsb => cases h; exact sendBatches_err _ _ _ hsb rfl
          next r hsb =>
            split at h
            next hassert => exact Except.noConfusion h
            next hassert =>
              apply hassert
              have hinv := outerLoop_inv f pf
                (sched.config.maxScheduledCus / sched.consumeWorkSenders.length)
                sched.consumeWorkSenders.length
                sched.config.targetTransactionsPerBatch
                sched.config.maxScannedTransactionsPerSchedulingPass
                (fun ls => ls.numScheduled = ls.numSent + batchTotal ls.batches ∧
                  ls.batches.ids.length = sched.consumeWorkSenders.length ∧
                  ls.sched.consumeWorkSenders.length =
                    sched.consumeWorkSenders.length)
                (fun fuel ls ls' hil hp _ => innerLoop_c4 _ _ _ _ _ _ _ _ hil hp)
                (outerLoopStep_c4 f sched.consumeWorkSenders.length)
                _ _ _ hout
                (by
                  refine ⟨?_, by simp [Batches.new], rfl⟩
                  simp [batchTotal_new])
              rw [sendBatches] at hsb
              have hfold := sendBatchesAux_spec _ _ _ hsb
              have hzero : batchTotal r.2.2 = 0 := by
                rw [batchTotal_eq_sum]
                apply sum_zero_of_all_empty
                intro t ht
                apply hfold.2.2.2.2
                rw [List.mem_range]
                have hlen1 := hfold.2.1
                simp only at hlen1
                omega
              have hsum := hfold.1
              simp only at hsum
              have hinv1 := hinv.1
              omega

/-- C4 witness: the roomy single-thread scheduler schedules both
transactions and does not trip the assertion. -/
theorem c4_scheduled_eq_sent_witness :
    (schedule exSchedRoomy exContainerTwo constTrue noFilter).map
        (fun r => r.2.2.numScheduled) = .ok 2 ∧
      schedule exSchedRoomy exContainerTwo constTrue noFilter ≠
        .error
          (.panicked "number of scheduled and sent transactions must match") :=
  ⟨by rfl, c4_scheduled_eq_sent exSchedRoomy exContainerTwo constTrue noFilter⟩

theorem getD_replicate_nil {α : Type} :
    ∀ (n t : Nat), (List.replicate n ([] : List α)).getD t [] = [] := by
  intro n
  induction n with
  | zero => intro t; cases t <;> rfl
  | succ n ih => intro t; cases t with
    | zero => rfl
    | succ t => simpa [List.replicate] using ih t

theorem batchesAligned_new (n : Nat) : batchesAligned (Batches.new n) := by
  refine ⟨by simp [Batches.new], by simp [Batches.new], ?_⟩
  intro t
  simp [Batches.new, getD_replicate_nil]

/-- Appending one transaction to a thread's accumulators keeps them in
parallel. -/
theorem batchesAligned_append (b : Batches) (t : Nat) (i : TransactionId)
    (tx : Tx) (ma : Nat) (c : Nat) (hb : batchesAligned b) :
    batchesAligned
      { ids := modifyAt (· ++ [i]) t b.ids
        transactions := modifyAt (· ++ [tx]) t b.transactions
        maxAges := modifyAt (· ++ [ma]) t b.maxAges
        totalCus := modifyAt (· + c) t b.totalCus } := by
  obtain ⟨h1, h2, h3⟩ := hb
  refine ⟨by simpa using h1, by simpa using h2, ?_⟩
  intro u
  by_cases hu : u = t
  · subst hu
    by_cases hlt : u < b.ids.length
    · rw [getD_modifyAt_self _ _ _ _ hlt, getD_modifyAt_self _ _ _ _ (by omega),
        getD_modifyAt_self _ _ _ _ (by omega)]
      have := h3 u
      simp only [List.length_append, List.length_singleton]
      omega
    · rw [modifyAt_oob _ _ _ (by omega), modifyAt_oob _ _ _ (by omega),
        modifyAt_oob _ _ _ (by omega)]
      exact h3 u
  · rw [getD_modifyAt_ne _ _ _ _ _ hu, getD_modifyAt_ne _ _ _ _ _ hu,
      getD_modifyAt_ne _ _ _ _ _ hu]
    exact h3 u

/-- Clearing a thread's accumulators keeps them in parallel. -/
theorem batchesAligned_takeBatch (b : Batches) (t : Nat)
    (hb : batchesAligned b) : batchesAligned (b.takeBatch t).2 := by
  obtain ⟨h1, h2, h3⟩ := hb
  refine ⟨by simp [Batches.takeBatch, h1], by simp [Batches.takeBatch, h2], ?_⟩
  intro u
  by_cases hu : u = t
  · subst hu
    by_cases hlt : u < b.ids.length
    · simp only [Batches.takeBatch]
      rw [getD_modifyAt_self _ _ _ _ hlt, getD_modifyAt_self _ _ _ _ (by omega),
        getD_modifyAt_self _ _ _ _ (by omega)]
      simp
    · simp only [Batches.takeBatch]
      rw [modifyAt_oob _ _ _ (by omega), modifyAt_oob _ _ _ (by omega),
        modifyAt_oob _ _ _ (by omega)]
      exact h3 u
  · simp only [Batches.takeBatch]
    rw [getD_modifyAt_ne _ _ _ _ _ hu, getD_modifyAt_ne _ _ _ _ _ hu,
      getD_modifyAt_ne _ _ _ _ _ hu]
    exact h3 u

/-- Channel and alignment preservation through one `send_batch`. -/
theorem sendBatch_good (sched : Sched) (batches : Batches) (t : Nat)
    (r : Nat × Sched × Batches) (h : sendBatch sched batches t = .ok r)
    (hch : goodChannels sched.consumeWorkSenders)
    (hb : batchesAligned batches) :
    goodChannels r.2.1.consumeWorkSenders ∧ batchesAligned r.2.2 := by
  rcases sendBatch_cases sched batches t r h with ⟨he, hr⟩ | ⟨he, msgs, hch2, hr⟩
  · subst hr; exact ⟨hch, hb⟩
  · subst hr
    refine ⟨?_, batchesAligned_takeBatch _ _ hb⟩
    intro ch hchmem w hw
    rcases List.mem_or_eq_of_mem_set hchmem with hmem | rfl
    · exact hch ch hmem w hw
    · simp only [Option.getD_some] at hw
      rcases List.mem_append.mp hw with hw | hw
      · have htlt : t < sched.consumeWorkSenders.length := by
          by_contra hge
          rw [getD_oob _ _ _ (Nat.le_of_not_lt hge)] at hch2
          exact Option.noConfusion hch2
        have hmem2 : some msgs ∈ sched.consumeWorkSenders := by
          have : sched.consumeWorkSenders.getD t none =
              sched.consumeWorkSenders.get ⟨t, htlt⟩ := by
            simp [List.getD, List.getElem?_eq_getElem htlt]
          rw [this] at hch2
          rw [← hch2]
          exact List.get_mem _ _ htlt
        exact hch (some msgs) hmem2 w (by simpa using hw)
      · rcases List.mem_singleton.mp hw with rfl
        have hids : batches.ids.getD t [] ≠ [] := by
          simpa [List.isEmpty_iff] using he
        exact ⟨hids, (hb.2.2 t).1, (hb.2.2 t).2⟩

/-- Channel and alignment preservation through the `send_batches` fold. -/
theorem sendBatchesFold_good :
    ∀ (l : List Nat) (acc r : Nat × Sched × Batches),
      (l.foldlM
        (fun acc threadIndex => do
          let r ← sendBatch acc.2.1 acc.2.2 threadIndex
          .ok (acc.1 + r.1, r.2.1, r.2.2)) acc :
          Except RunError (Nat × Sched × Batches)) = .ok r →
      goodChannels acc.2.1.consumeWorkSenders → batchesAligned acc.2.2 →
      goodChannels r.2.1.consumeWorkSenders ∧ batchesAligned r.2.2 := by
  intro l
  induction l with
  | nil =>
    intro acc r h hch hb
    cases h
    exact ⟨hch, hb⟩
  | cons t l ih =>
    intro acc r h hch hb
    rw [List.foldlM_cons] at h
    cases hsb : sendBatch acc.2.1 acc.2.2 t with
    | error e => rw [hsb] at h; exact Except.noConfusion h
    | ok r1 =>
      rw [hsb] at h
      simp only [bind, Except.bind] at h
      have hgood := sendBatch_good _ _ _ _ hsb hch hb
      exact ih _ _ h hgood.1 hgood.2

/-- Channel well-formedness through a full run of the inner loop. -/
theorem innerLoop_c10 (pf : TransactionState → PreLockFilterAction)
    (mc nt tgt cap : Nat) (fuel : Nat) (ls ls' : LoopState)
    (h : innerLoop pf mc nt tgt cap fuel ls = .ok ls')
    (hq : goodChannels ls.sched.consumeWorkSenders ∧ batchesAligned ls.batches) :
    goodChannels ls'.sched.consumeWorkSenders ∧ batchesAligned ls'.batches := by
  have hstep : ∀ ls ls1,
      (innerLoopStep pf mc nt tgt cap ls = .ok (.next ls1) ∨
        innerLoopStep pf mc nt tgt cap ls = .ok (.stop ls1)) →
      (goodChannels ls.sched.consumeWorkSenders ∧ batchesAligned ls.batches) →
      goodChannels ls1.sched.consumeWorkSenders ∧ batchesAligned ls1.batches := by
    intro ls ls1 hs hq
    rcases hs with hs | hs <;>
    · rcases innerLoopStep_cases _ _ _ _ _ _ _ hs with
        ⟨he, _⟩ | ⟨id, g', ts, e, b', _, _, _, hres⟩ |
        ⟨id, g', ts, t, tx, ma, c, ns, lk, ls3, _, _, htry, hls3, hres⟩
      · cases he <;> exact hq
      · rcases hres with he | ⟨he, _⟩ <;> cases he <;> exact hq
      · have h3 : goodChannels ls3.sched.consumeWorkSenders ∧
            batchesAligned ls3.batches := by
          rcases hls3 with h3 | ⟨r, hsb, h3⟩
          · subst h3
            exact ⟨hq.1, batchesAligned_append _ _ _ _ _ _ hq.2⟩
          · subst h3
            simp only [flushedState_sched, flushedState_batches]
            exact sendBatch_good _ _ _ _ hsb hq.1
              (batchesAligned_append _ _ _ _ _ _ hq.2)
        rcases hres with he | he | ⟨he | he, _⟩ <;> cases he <;> exact h3
  exact innerLoop_inv pf mc nt tgt cap
    (fun ls => goodChannels ls.sched.consumeWorkSenders ∧
      batchesAligned ls.batches)
    (fun ls => goodChannels ls.sched.consumeWorkSenders ∧
      batchesAligned ls.batches)
    (fun ls ls1 hs hq => hstep ls ls1 (Or.inl hs) hq)
    (fun ls ls1 hs hq => hstep ls ls1 (Or.inr hs) hq)
    (fun ls hq => hq) fuel ls ls' h hq

/-- Channel well-formedness through the send-replenish-unblock step. -/
theorem outerLoopStep_c10 (f : List Tx → List Bool) (ls ls' : LoopState)
    (h : outerLoopStep f ls = .ok ls')
    (hq : goodChannels ls.sched.consumeWorkSenders ∧ batchesAligned ls.batches) :
    goodChannels ls'.sched.consumeWorkSenders ∧ batchesAligned ls'.batches := by
  simp only [outerLoopStep, sendBatches] at h
  split at h
  next e hsb => exact Except.noConfusion h
  next r hsb =>
    have hgood := sendBatchesFold_good _ _ _ hsb hq.1 hq.2
    split at h
    next e hcp => exact Except.noConfusion h
    next cp hcp =>
      cases h
      exact hgood

/-- C10: `send_batch` sends nothing for an empty accumulator, and every
`ConsumeWork` message on the consume channels after a pass (starting from
empty channels) carries at least one transaction, its ids, payloads and
ages in parallel. -/
theorem c10_no_empty_batches :
    (∀ (sched : Sched) (batches : Batches) (t : Nat),
        (batches.ids.getD t []).isEmpty = true →
        sendBatch sched batches t = .ok (0, sched, batches)) ∧
      ∀ (sched : Sched) (container : Container) (f : List Tx → List Bool)
        (pf : TransactionState → PreLockFilterAction) (s' : Sched)
        (c' : Container) (summary : SchedulingSummary),
        (∀ ch ∈ sched.consumeWorkSenders, ch.getD [] = ([] : List ConsumeWork)) →
        schedule sched container f pf = .ok (s', c', summary) →
        goodChannels s'.consumeWorkSenders := by
  constructor
  · intro sched batches t he
    simp only [sendBatch]
    rw [if_pos he]
  · intro sched container f pf s' c' summary hinit h
    have hch0 : goodChannels sched.consumeWorkSenders := by
      intro ch hch w hw
      rw [hinit ch hch] at hw
      cases hw
    simp only [schedule] at h
    split at h
    next => exact Except.noConfusion h
    next h0 =>
      split at h
      next hempty =>
        cases h
        exact hch0
      next hempty =>
        split at h
        next e hcp => exact Except.noConfusion h
        next cp hcp =>
          split at h
          next e hout => exact Except.noConfusion h
          next ls hout =>
            split at h
            next e hsb => exact Except.noConfusion h
            next r hsb =>
              split at h
              next hassert =>
                cases h
                have hinv := outerLoop_inv f pf
                  (sched.config.maxScheduledCus / sched.consumeWorkSenders.length)
                  sched.consumeWorkSenders.length
                  sched.config.targetTransactionsPerBatch
                  sched.config.maxScannedTransactionsPerSchedulingPass
                  (fun ls => goodChannels ls.sched.consumeWorkSenders ∧
                    batchesAligned ls.batches)
                  (fun fuel ls ls' hil hp _ => innerLoop_c10 _ _ _ _ _ _ _ _ hil hp)
                  (outerLoopStep_c10 f)
                  _ _ _ hout ⟨hch0, batchesAligned_new _⟩
                rw [sendBatches] at hsb
                have hgood := sendBatchesFold_good _ _ _ hsb hinv.1 hinv.2
                exact hgood.1
              next hassert => exact Except.noConfusion h

/-- C10 witness: the empty accumulator sends nothing, and the roomy run
leaves only well-formed messages on its channel. -/
theorem c10_no_empty_batches_witness :
    sendBatch exSchedRoomy (Batches.new 1) 0 =
        .ok (0, exSchedRoomy, Batches.new 1) ∧
      goodChannels exRunRoomy.1.consumeWorkSenders := by
  constructor
  · exact c10_no_empty_batches.1 exSchedRoomy (Batches.new 1) 0 (by rfl)
  · have h : schedule exSchedRoomy exContainerTwo constTrue noFilter =
        .ok exRunRoomy := by rfl
    exact c10_no_empty_batches.2 exSchedRoomy exContainerTwo constTrue noFilter
      _ _ _ (by decide) h

theorem rwSubset_refl (a : ReadWriteAccountSet) : rwSubset a a :=
  ⟨Finset.Subset.refl _, Finset.Subset.refl _⟩

theorem rwSubset_trans {a b c : ReadWriteAccountSet} (h1 : rwSubset a b)
    (h2 : rwSubset b c) : rwSubset a c :=
  ⟨Finset.Subset.trans h1.1 h2.1, Finset.Subset.trans h1.2 h2.2⟩

theorem takeLocks_subset (bl : ReadWriteAccountSet) (tx : Tx) :
    rwSubset bl (bl.takeLocks tx) :=
  ⟨Finset.subset_union_left, Finset.subset_union_left⟩

theorem checkLocks_eq_true_iff (s : ReadWriteAccountSet) (tx : Tx) :
    s.checkLocks tx = true ↔
      (∀ k ∈ writeAccountLocks tx, k ∉ s.writeSet ∧ k ∉ s.readSet) ∧
        ∀ k ∈ readAccountLocks tx, k ∉ s.writeSet := by
  simp [ReadWriteAccountSet.checkLocks, List.all_eq_true]

theorem checkLocks_mono {a b : ReadWriteAccountSet} (tx : Tx)
    (hs : rwSubset a b) (h : b.checkLocks tx = true) :
    a.checkLocks tx = true := by
  rw [checkLocks_eq_true_iff] at h ⊢
  refine ⟨fun k hk => ?_, fun k hk => ?_⟩
  · have := h.1 k hk
    exact ⟨fun hmem => this.1 (hs.1 hmem), fun hmem => this.2 (hs.2 hmem)⟩
  · exact fun hmem => h.2 k hk (hs.1 hmem)

theorem checkLocks_false_mono {a b : ReadWriteAccountSet} (tx : Tx)
    (hs : rwSubset a b) (h : a.checkLocks tx = false) :
    b.checkLocks tx = false := by
  by_contra hb
  rw [checkLocks_mono tx hs (by revert hb; cases b.checkLocks tx <;> simp)] at h
  exact Bool.noConfusion h

theorem transitionToPending_ttl (ts : TransactionState)
    (p : SanitizedTransactionTTL × TransactionState)
    (h : ts.transitionToPending = some p) : ts.transactionTTL = some p.1 := by
  cases hs : ts.status with
  | pendingInContainer ttl =>
    simp only [TransactionState.transitionToPending, hs, Option.some.injEq] at h
    cases h
    simp [TransactionState.transactionTTL, hs]
  | scheduledInFlight =>
    simp [TransactionState.transitionToPending, hs] at h

/-- Blocking-lock bookkeeping of `try_schedule_transaction`: a deferred
transaction claims its locks into the blocking set, and a scheduled one
was compatible with the blocking set. -/
theorem tryScheduleTransaction_blocking (ts : TransactionState)
    (pf : TransactionState → PreLockFilterAction) (bl : ReadWriteAccountSet)
    (al : ThreadAwareAccountLocks) (nt : Nat)
    (sel : ThreadSet → Option ThreadId) (out : TryScheduleOutcome)
    (h : tryScheduleTransaction ts pf bl al nt sel = .ok out) :
    (∀ e b', out = .unschedulable e b' →
        ∃ ttl, ts.transactionTTL = some ttl ∧
          b' = bl.takeLocks ttl.transaction) ∧
      ∀ t tx ma c ns lk, out = .scheduled t tx ma c ns lk →
        ∃ ttl, ts.transactionTTL = some ttl ∧ tx = ttl.transaction ∧
          bl.checkLocks ttl.transaction = true := by
  simp only [tryScheduleTransaction] at h
  split at h
  next httl => exact Except.noConfusion h
  next ttl httl =>
    split at h
    next hcheck =>
      cases h
      refine ⟨fun e b' he => ?_, fun t tx ma c ns lk he => ?_⟩
      · cases he
        exact ⟨ttl, httl, rfl⟩
      · cases he
    next hcheck =>
      have hcheckT : bl.checkLocks ttl.transaction = true := by
        revert hcheck
        cases bl.checkLocks ttl.transaction <;> simp
      split at h
      · exact Except.noConfusion h
      · cases h
        refine ⟨fun e b' he => ?_, fun t tx ma c ns lk he => ?_⟩
        · cases he
          exact ⟨ttl, httl, rfl⟩
        · cases he
      · cases h
        refine ⟨fun e b' he => ?_, fun t tx ma c ns lk he => ?_⟩
        · cases he
          exact ⟨ttl, httl, rfl⟩
        · cases he
      next t' lk' htl =>
        split at h
        · exact Except.noConfusion h
        next sttl ts2 hp =>
          cases h
          refine ⟨fun e b' he => ?_, fun t tx ma c ns lk he => ?_⟩
          · cases he
          · cases he
            have hteq := transitionToPending_ttl ts (sttl, ts2) hp
            rw [httl] at hteq
            cases hteq
            exact ⟨sttl, httl, rfl, hcheckT⟩

theorem set_eq_modifyAt {α : Type} (v : α) :
    ∀ (t : Nat) (l : List α), l.set t v = modifyAt (fun _ => v) t l := by
  intro t
  induction t with
  | zero => intro l; cases l <;> rfl
  | succ t ih => intro l; cases l with
    | nil => rfl
    | cons x xs => simp [modifyAt, List.set, ih]

theorem foldl_add_map {α : Type} (m : α → Nat) :
    ∀ (l : List α) (n : Nat),
      l.foldl (fun a x => a + m x) n = n + (l.map m).sum := by
  intro l
  induction l with
  | nil => intro n; simp
  | cons x xs ih => intro n; simp [ih]; omega

theorem batchesDispatchCount_eq_sum (b : Batches) (tx : Tx) :
    batchesDispatchCount b tx =
      (b.transactions.map (fun l => l.count tx)).sum := by
  simp [batchesDispatchCount, foldl_add_map]

theorem channelDispatchCount_eq_sum (chs : List (Option (List ConsumeWork)))
    (tx : Tx) :
    channelDispatchCount chs tx =
      (chs.map (fun ch =>
        ((ch.getD []).map (fun w => w.transactions.count tx)).sum)).sum := by
  have h1 := foldl_add_map
    (fun (ch : Option (List ConsumeWork)) =>
      (ch.getD []).foldl (fun m w => m + w.transactions.count tx) 0) chs 0
  rw [channelDispatchCount, h1, Nat.zero_add]
  congr 1
  apply List.map_congr_left
  intro ch _
  have h2 := foldl_add_map
    (fun (w : ConsumeWork) => w.transactions.count tx) (ch.getD []) 0
  rw [h2]
  simp

/-- `send_batch` moves transactions from the accumulator to the channel
without creating or losing copies. -/
theorem sendBatch_dispatch (sched : Sched) (batches : Batches) (t : Nat)
    (r : Nat × Sched × Batches) (h : sendBatch sched batches t = .ok r)
    (tx : Tx) :
    batchesDispatchCount r.2.2 tx +
        channelDispatchCount r.2.1.consumeWorkSenders tx =
      batchesDispatchCount batches tx +
        channelDispatchCount sched.consumeWorkSenders tx := by
  rcases sendBatch_cases sched batches t r h with ⟨he, hr⟩ | ⟨he, msgs, hch2, hr⟩
  · subst hr; rfl
  · subst hr
    have htlt : t < batches.ids.length := by
      by_contra hge
      rw [getD_oob _ _ _ (Nat.le_of_not_lt hge)] at he
      simp at he
    have hclt : t < sched.consumeWorkSenders.length := by
      by_contra hge
      rw [getD_oob _ _ _ (Nat.le_of_not_lt hge)] at hch2
      exact Option.noConfusion hch2
    simp only [batchesDispatchCount_eq_sum, channelDispatchCount_eq_sum,
      Batches.takeBatch]
    by_cases hblt : t < batches.transactions.length
    · have hbat := sum_map_modifyAt (fun l => l.count tx)
        (fun _ => ([] : List Tx)) [] t batches.transactions hblt
      have hch := sum_map_modifyAt (fun ch =>
          ((ch.getD []).map (fun w => w.transactions.count tx)).sum)
        (fun _ => some (msgs ++
          [{ batchId := (sched.inFlightTracker.trackBatch
              (batches.ids.getD t []).length (batches.totalCus.getD t 0) t).1
             ids := batches.ids.getD t []
             transactions := batches.transactions.getD t []
             maxAges := batches.maxAges.getD t [] }]))
        none t sched.consumeWorkSenders hclt
      rw [set_eq_modifyAt]
      simp only [hch2, Option.getD_some, List.map_append, List.sum_append,
        List.map_cons, List.map_nil, List.sum_cons, List.sum_nil,
        List.count_nil] at hch ⊢
      simp only [List.count_nil] at hbat
      omega
    · rw [modifyAt_oob _ _ _ (Nat.le_of_not_lt hblt), set_eq_modifyAt]
      have hbat : batches.transactions.getD t [] = [] :=
        getD_oob _ _ _ (Nat.le_of_not_lt hblt)
      have hch := sum_map_modifyAt (fun ch =>
          ((ch.getD []).map (fun w => w.transactions.count tx)).sum)
        (fun _ => some (msgs ++
          [{ batchId := (sched.inFlightTracker.trackBatch
              (batches.ids.getD t []).length (batches.totalCus.getD t 0) t).1
             ids := batches.ids.getD t []
             transactions := batches.transactions.getD t []
             maxAges := batches.maxAges.getD t [] }]))
        none t sched.consumeWorkSenders hclt
      simp only [hch2, Option.getD_some, List.map_append, List.sum_append,
        List.map_cons, List.map_nil, List.sum_cons, List.sum_nil, hbat,
        List.count_nil] at hch ⊢
      omega

/-- Copy conservation through the `send_batches` fold. -/
theorem sendBatchesFold_dispatch :
    ∀ (l : List Nat) (acc r : Nat × Sched × Batches),
      (l.foldlM
        (fun acc threadIndex => do
          let r ← sendBatch acc.2.1 acc.2.2 threadIndex
          .ok (acc.1 + r.1, r.2.1, r.2.2)) acc :
          Except RunError (Nat × Sched × Batches)) = .ok r →
      ∀ tx,
        batchesDispatchCount r.2.2 tx +
            channelDispatchCount r.2.1.consumeWorkSenders tx =
          batchesDispatchCount acc.2.2 tx +
            channelDispatchCount acc.2.1.consumeWorkSenders tx := by
  intro l
  induction l with
  | nil =>
    intro acc r h tx
    cases h
    rfl
  | cons t l ih =>
    intro acc r h tx
    rw [List.foldlM_cons] at h
    cases hsb : sendBatch acc.2.1 acc.2.2 t with
    | error e => rw [hsb] at h; exact Except.noConfusion h
    | ok r1 =>
      rw [hsb] at h
      simp only [bind, Except.bind] at h
      have h1 := sendBatch_dispatch _ _ _ _ hsb tx
      have h2 := ih _ _ h tx
      simp only at h1 h2 ⊢
      omega

@[simp] theorem unschedState_blockingLocks (ls : LoopState)
    (id : TransactionPriorityId) (g' : PrioGraph) (b : ReadWriteAccountSet) :
    (unschedState ls id g' b).blockingLocks = b := rfl

@[simp] theorem schedState_blockingLocks (ls : LoopState)
    (id : TransactionPriorityId) (g' : PrioGraph) (t : ThreadId) (tx : Tx)
    (ma c : Nat) (ns : TransactionState) (lk : ThreadAwareAccountLocks) :
    (schedState ls id g' t tx ma c ns lk).blockingLocks = ls.blockingLocks := rfl

@[simp] theorem flushedState_blockingLocks (ls2 : LoopState)
    (r : Nat × Sched × Batches) :
    (flushedState ls2 r).blockingLocks = ls2.blockingLocks := rfl

@[simp] theorem cuRemovedState_blockingLocks (ls3 : LoopState) (t : ThreadId) :
    (cuRemovedState ls3 t).blockingLocks = ls3.blockingLocks := rfl

theorem sum_count_modifyAt_append_ne (tr tx : Tx) (htx : tr ≠ tx) (t : Nat)
    (l : List (List Tx)) :
    ((modifyAt (· ++ [tr]) t l).map (fun xs => xs.count tx)).sum =
      (l.map (fun xs => xs.count tx)).sum := by
  by_cases ht : t < l.length
  · have h := sum_map_modifyAt (fun xs => xs.count tx) (· ++ [tr]) [] t l ht
    have hc : ∀ xs : List Tx, (xs ++ [tr]).count tx = xs.count tx := by
      intro xs
      rw [List.count_append]
      simp [List.count_singleton', htx]
    simp only [hc] at h
    omega
  · rw [modifyAt_oob _ _ _ (Nat.le_of_not_lt ht)]

theorem dispatchCount_unschedState (ls : LoopState) (id : TransactionPriorityId)
    (g' : PrioGraph) (b : ReadWriteAccountSet) (tx : Tx) :
    dispatchCount (unschedState ls id g' b) tx = dispatchCount ls tx := rfl

theorem dispatchCount_cuRemovedState (ls3 : LoopState) (t : ThreadId) (tx : Tx) :
    dispatchCount (cuRemovedState ls3 t) tx = dispatchCount ls3 tx := rfl

theorem dispatchCount_schedState_ne (ls : LoopState) (id : TransactionPriorityId)
    (g' : PrioGraph) (t : ThreadId) (tr : Tx) (ma c : Nat)
    (ns : TransactionState) (lk : ThreadAwareAccountLocks) (tx : Tx)
    (htx : tr ≠ tx) :
    dispatchCount (schedState ls id g' t tr ma c ns lk) tx =
      dispatchCount ls tx := by
  simp only [dispatchCount, batchesDispatchCount_eq_sum]
  have : (schedState ls id g' t tr ma c ns lk).batches.transactions =
      modifyAt (· ++ [tr]) t ls.batches.transactions := rfl
  rw [this, sum_count_modifyAt_append_ne tr tx htx]
  rfl

/-- One inner iteration only grows the blocking set and never dispatches
a transaction that conflicts with it. -/
theorem innerLoopStep_c2 (pf : TransactionState → PreLockFilterAction)
    (mc nt tgt cap : Nat) (ls ls1 : LoopState)
    (hs : innerLoopStep pf mc nt tgt cap ls = .ok (.next ls1) ∨
      innerLoopStep pf mc nt tgt cap ls = .ok (.stop ls1)) :
    rwSubset ls.blockingLocks ls1.blockingLocks ∧
      ∀ tx, ls.blockingLocks.checkLocks tx = false →
        dispatchCount ls1 tx = dispatchCount ls tx := by
  rcases hs with hs | hs <;>
  · rcases innerLoopStep_cases _ _ _ _ _ _ _ hs with
      ⟨he, _⟩ | ⟨id, g', ts, e, b', _, _, htry, hres⟩ |
      ⟨id, g', ts, t, tr, ma, c, ns, lk, ls3, _, _, htry, hls3, hres⟩
    · cases he <;> exact ⟨rwSubset_refl _, fun tx _ => rfl⟩
    · have hb := (tryScheduleTransaction_blocking _ _ _ _ _ _ _ htry).1 e b' rfl
      rcases hb with ⟨ttl, httl, hb⟩
      have hsub : rwSubset ls.blockingLocks b' := by
        rw [hb]
        exact takeLocks_subset _ _
      rcases hres with he | ⟨he, _⟩ <;> cases he <;>
        exact ⟨hsub, fun tx _ => rfl⟩
    · have hb := (tryScheduleTransaction_blocking _ _ _ _ _ _ _ htry).2
        t tr ma c ns lk rfl
      rcases hb with ⟨ttl, httl, htr, hcheck⟩
      have h3 : rwSubset ls.blockingLocks ls3.blockingLocks ∧
          ∀ tx, ls.blockingLocks.checkLocks tx = false →
            dispatchCount ls3 tx = dispatchCount ls tx := by
        have hfr : ∀ tx, ls.blockingLocks.checkLocks tx = false →
            dispatchCount
              (schedState ls id g' t tr ma c ns lk) tx = dispatchCount ls tx := by
          intro tx hfalse
          have htx : tr ≠ tx := by
            intro heq
            rw [htr] at heq
            rw [heq, hfalse] at hcheck
            exact Bool.noConfusion hcheck
          exact dispatchCount_schedState_ne _ _ _ _ _ _ _ _ _ _ htx
        rcases hls3 with h3 | ⟨r, hsb, h3⟩
        · subst h3
          exact ⟨by rw [schedState_blockingLocks]; exact rwSubset_refl _, hfr⟩
        · subst h3
          refine ⟨by simp only [flushedState_blockingLocks,
            schedState_blockingLocks]; exact rwSubset_refl _, ?_⟩
          intro tx hfalse
          have hmove := sendBatch_dispatch _ _ _ _ hsb tx
          have := hfr tx hfalse
          simp only [dispatchCount, flushedState_batches, flushedState_sched]
            at *
          omega
      rcases hres with he | he | ⟨he | he, _⟩ <;> cases he <;> exact h3

/-- Blocking growth and shielding along a full inner-loop run. -/
theorem innerLoop_c2 (pf : TransactionState → PreLockFilterAction)
    (mc nt tgt cap : Nat) (fuel : Nat) (ls ls' : LoopState)
    (h : innerLoop pf mc nt tgt cap fuel ls = .ok ls') :
    rwSubset ls.blockingLocks ls'.blockingLocks ∧
      ∀ tx, ls.blockingLocks.checkLocks tx = false →
        dispatchCount ls' tx = dispatchCount ls tx := by
  refine innerLoop_inv pf mc nt tgt cap
    (fun x => rwSubset ls.blockingLocks x.blockingLocks ∧
      ∀ tx, ls.blockingLocks.checkLocks tx = false →
        dispatchCount x tx = dispatchCount ls tx)
    (fun x => rwSubset ls.blockingLocks x.blockingLocks ∧
      ∀ tx, ls.blockingLocks.checkLocks tx = false →
        dispatchCount x tx = dispatchCount ls tx)
    ?_ ?_ (fun x hx => hx) fuel ls ls' h ⟨rwSubset_refl _, fun _ _ => rfl⟩
  · intro x x1 hs hx
    have hstep := innerLoopStep_c2 pf mc nt tgt cap x x1 (Or.inl hs)
    refine ⟨rwSubset_trans hx.1 hstep.1, fun tx hfalse => ?_⟩
    rw [hstep.2 tx (checkLocks_false_mono tx hx.1 hfalse), hx.2 tx hfalse]
  · intro x x1 hs hx
    have hstep := innerLoopStep_c2 pf mc nt tgt cap x x1 (Or.inr hs)
    refine ⟨rwSubset_trans hx.1 hstep.1, fun tx hfalse => ?_⟩
    rw [hstep.2 tx (checkLocks_false_mono tx hx.1 hfalse), hx.2 tx hfalse]

/-- The send-replenish-unblock step neither changes the blocking set nor
the dispatched copies. -/
theorem outerLoopStep_c2 (f : List Tx → List Bool) (ls ls' : LoopState)
    (h : outerLoopStep f ls = .ok ls') :
    ls'.blockingLocks = ls.blockingLocks ∧
      ∀ tx, dispatchCount ls' tx = dispatchCount ls tx := by
  simp only [outerLoopStep, sendBatches] at h
  split at h
  next e hsb => exact Except.noConfusion h
  next r hsb =>
    split at h
    next e hcp => exact Except.noConfusion h
    next cp hcp =>
      cases h
      refine ⟨rfl, fun tx => ?_⟩
      have := sendBatchesFold_dispatch _ _ _ hsb tx
      simp only [dispatchCount] at *
      omega

/-- C2: a popped transaction is deferred with its read and write locks
claimed into the blocking set on both trigger paths: a failed
blocking-set check defers it as `UnschedulableConflicts`, and a
`try_lock_accounts` error defers it as `UnschedulableConflicts` on
`MultipleConflicts` and as `UnschedulableThread` on `ThreadNotAllowed`;
across the rest of the pass the blocking set only grows, and no
transaction conflicting with it is ever dispatched after that point (its
dispatched copies stay exactly as they were). -/
theorem c2_priority_shielding :
    (∀ (ts : TransactionState) (pf : TransactionState → PreLockFilterAction)
        (bl : ReadWriteAccountSet) (al : ThreadAwareAccountLocks) (nt : Nat)
        (sel : ThreadSet → Option ThreadId) (ttl : SanitizedTransactionTTL),
        ts.transactionTTL = some ttl →
        bl.checkLocks ttl.transaction = false →
        tryScheduleTransaction ts pf bl al nt sel =
          .ok (.unschedulable .UnschedulableConflicts
            (bl.takeLocks ttl.transaction))) ∧
      (∀ (ts : TransactionState) (pf : TransactionState → PreLockFilterAction)
        (bl : ReadWriteAccountSet) (al : ThreadAwareAccountLocks) (nt : Nat)
        (sel : ThreadSet → Option ThreadId) (ttl : SanitizedTransactionTTL)
        (err : TryLockError),
        ts.transactionTTL = some ttl →
        bl.checkLocks ttl.transaction = true →
        al.tryLockAccounts (writeAccountLocks ttl.transaction)
            (readAccountLocks ttl.transaction) (ThreadSet.any nt) sel =
          .ok (.error err) →
        tryScheduleTransaction ts pf bl al nt sel =
          .ok (.unschedulable
            (match err with
              | .MultipleConflicts => .UnschedulableConflicts
              | .ThreadNotAllowed => .UnschedulableThread)
            (bl.takeLocks ttl.transaction))) ∧
      ∀ (f : List Tx → List Bool) (pf : TransactionState → PreLockFilterAction)
        (mc nt tgt cap fuel : Nat) (ls ls' : LoopState),
        outerLoop f pf mc nt tgt cap fuel ls = .ok ls' →
        rwSubset ls.blockingLocks ls'.blockingLocks ∧
          ∀ tx, ls.blockingLocks.checkLocks tx = false →
            dispatchCount ls' tx = dispatchCount ls tx := by
  refine ⟨?_, ?_, ?_⟩
  · intro ts pf bl al nt sel ttl httl hfalse
    simp [tryScheduleTransaction, httl, hfalse]
  · intro ts pf bl al nt sel ttl err httl htrue hlock
    cases err with
    | MultipleConflicts => simp [tryScheduleTransaction, httl, htrue, hlock]
    | ThreadNotAllowed => simp [tryScheduleTransaction, httl, htrue, hlock]
  · intro f pf mc nt tgt cap fuel ls ls' h
    refine outerLoop_inv f pf mc nt tgt cap
      (fun x => rwSubset ls.blockingLocks x.blockingLocks ∧
        ∀ tx, ls.blockingLocks.checkLocks tx = false →
          dispatchCount x tx = dispatchCount ls tx)
      ?_ ?_ fuel ls ls' h ⟨rwSubset_refl _, fun _ _ => rfl⟩
    · intro fuel x x' hil hx _
      have hstep := innerLoop_c2 pf mc nt tgt cap fuel x x' hil
      refine ⟨rwSubset_trans hx.1 hstep.1, fun tx hfalse => ?_⟩
      rw [hstep.2 tx (checkLocks_false_mono tx hx.1 hfalse), hx.2 tx hfalse]
    · intro x x' hos hx
      have hstep := outerLoopStep_c2 f x x' hos
      refine ⟨by rw [hstep.1]; exact hx.1, fun tx hfalse => ?_⟩
      rw [hstep.2 tx, hx.2 tx hfalse]

/-- C2 witness: a pending write of account 100 against a blocking set
already claiming account 100 is deferred and claims its locks; and a
transaction writing accounts 100 and 101 held by two different threads
passes the empty blocking set but defers on `MultipleConflicts` from
`try_lock_accounts`, also claiming its locks. -/
theorem c2_priority_shielding_witness :
    tryScheduleTransaction (mkState 5 7 (mkTx 100)) noFilter
        ⟨{100}, ∅⟩ ⟨1, []⟩ 1 (fun _ => none) =
      .ok (.unschedulable .UnschedulableConflicts
        (ReadWriteAccountSet.takeLocks ⟨{100}, ∅⟩ (mkTx 100))) ∧
      tryScheduleTransaction (mkState 5 7 ⟨[100, 101], [true, true]⟩) noFilter
          ⟨∅, ∅⟩
          ⟨2, [(100, ⟨some (0, 1), []⟩), (101, ⟨some (1, 1), []⟩)]⟩ 2
          (fun _ => none) =
        .ok (.unschedulable .UnschedulableConflicts
          (ReadWriteAccountSet.takeLocks ⟨∅, ∅⟩
            ⟨[100, 101], [true, true]⟩)) := by
  constructor
  · exact c2_priority_shielding.1 (mkState 5 7 (mkTx 100)) noFilter
      ⟨{100}, ∅⟩ ⟨1, []⟩ 1 (fun _ => none) ⟨mkTx 100, 0⟩ (by rfl) (by decide)
  · exact c2_priority_shielding.2.1 (mkState 5 7 ⟨[100, 101], [true, true]⟩)
      noFilter ⟨∅, ∅⟩
      ⟨2, [(100, ⟨some (0, 1), []⟩), (101, ⟨some (1, 1), []⟩)]⟩ 2
      (fun _ => none) ⟨⟨[100, 101], [true, true]⟩, 0⟩ .MultipleConflicts
      (by rfl) (by decide) (by rfl)

/-- C3: every `schedule` pass that returns `Ok` reports
`num_scheduled + num_unschedulable` at most
`max_scanned_transactions_per_scheduling_pass`: each popped transaction
counts toward the scan counter, and popping stops at the cap. -/
theorem c3_scan_cap (sched : Sched) (container : Container)
    (f : List Tx → List Bool) (pf : TransactionState → PreLockFilterAction)
    (s' : Sched) (c' : Container) (summary : SchedulingSummary)
    (h : schedule sched container f pf = .ok (s', c', summary)) :
    summary.numScheduled + summary.numUnschedulable ≤
      sched.config.maxScannedTransactionsPerSchedulingPass := by
  simp only [schedule] at h
  split at h
  next => exact Except.noConfusion h
  next h0 =>
    split at h
    next hempty =>
      cases h
      simp
    next hempty =>
      split at h
      next e hcp => exact Except.noConfusion h
      next cp hcp =>
        split at h
        next e hout => exact Except.noConfusion h
        next ls hout =>
          split at h
          next e hsb => exact Except.noConfusion h
          next r hsb =>
            split at h
            next hassert =>
              cases h
              have hinv := outerLoop_inv f pf
                (sched.config.maxScheduledCus / sched.consumeWorkSenders.length)
                sched.consumeWorkSenders.length
                sched.config.targetTransactionsPerBatch
                sched.config.maxScannedTransactionsPerSchedulingPass
                (fun ls => ls.numScheduled + ls.numUnschedulable ≤ ls.numScanned ∧
                  ls.numScanned ≤ sched.config.maxScannedTransactionsPerSchedulingPass)
                ?hinner ?hstep _ _ _ hout (by constructor <;> simp)
              case hinner =>
                intro fuel ls ls' hil hp hlt
                exact innerLoop_c3 _ _ _ _ _ _ _ _ hil ⟨hp.1, hlt⟩
              case hstep =>
                intro ls ls' hos hp
                have hc := outerLoopStep_counts f ls ls' hos
                omega
              simp only [SchedulingSummary.numScheduled, SchedulingSummary.numUnschedulable]
              omega
            next hassert => exact Except.noConfusion h

/-- C3 witness: the roomy single-thread scheduler on two transactions. -/
theorem c3_scan_cap_witness :
    2 + 0 ≤ exSchedRoomy.config.maxScannedTransactionsPerSchedulingPass := by
  have hrun : schedule exSchedRoomy exContainerTwo constTrue noFilter =
      .ok ((schedule exSchedRoomy exContainerTwo constTrue noFilter).toOption.get
        (by rfl)) := by rfl
  have hth := c3_scan_cap exSchedRoomy exContainerTwo constTrue noFilter
    _ _ _ hrun
  exact hth

/-- C8: for every non-empty candidate `ThreadSet`, `select_thread`
returns a thread of the set minimising `batch_cus + in_flight_cus`, with
ties broken by minimising `batch_count + in_flight_count`, and it panics
(modelled as `none`) exactly on the empty set. -/
theorem c8_select_thread :
    (∀ (s : ThreadSet) (bc ic : List Nat) (bt : List (List Tx)) (it : List Nat),
        selectThread s bc ic bt it = none ↔ s = ∅) ∧
      ∀ (s : ThreadSet) (bc ic : List Nat) (bt : List (List Tx)) (it : List Nat)
        (t : ThreadId), selectThread s bc ic bt it = some t →
          t ∈ s ∧ ∀ u ∈ s,
            lexLe (selectThreadKey bc ic bt it t) (selectThreadKey bc ic bt it u) := by
  constructor
  · intro s bc ic bt it
    rw [selectThread, minByKey_eq_none_iff, toAscList_eq_nil_iff]
  · intro s bc ic bt it t h
    have hspec := minByKey_foldl_spec (selectThreadKey bc ic bt it)
      s.toAscList none t (by simpa [selectThread, minByKey] using h)
    rcases hspec with ⟨h1, h2, _⟩
    have ht : t ∈ s := mem_toAscList.mp (h1.resolve_left (by simp))
    exact ⟨ht, fun u hu => h2 u (mem_toAscList.mpr hu)⟩

/-- C8 witness: a concrete two-thread set where thread 1 carries less
work. -/
theorem c8_select_thread_witness :
    selectThread ({0, 1} : ThreadSet) [5, 3] [0, 0] [[], []] [0, 0] = some 1 ∧
      1 ∈ ({0, 1} : ThreadSet) ∧
        ∀ u ∈ ({0, 1} : ThreadSet),
          lexLe (selectThreadKey [5, 3] [0, 0] [[], []] [0, 0] 1)
            (selectThreadKey [5, 3] [0, 0] [[], []] [0, 0] u) :=
  ⟨by rfl, c8_select_thread.2 _ _ _ _ _ 1 (by rfl)⟩

/-- C7: when every thread starts the pass at or above the per-thread cu
cap, `schedule` returns the all-zero summary and leaves the scheduler and
the container untouched (in particular nothing is popped and nothing is
sent). -/
theorem c7_zero_summary (sched : Sched) (container : Container)
    (f : List Tx → List Bool) (pf : TransactionState → PreLockFilterAction)
    (h0 : sched.consumeWorkSenders.length ≠ 0)
    (hcap : ∀ t < sched.consumeWorkSenders.length,
      sched.config.maxScheduledCus / sched.consumeWorkSenders.length ≤
        sched.inFlightTracker.cusInFlightPerThread.getD t 0) :
    schedule sched container f pf =
      .ok (sched, container,
        { numScheduled := 0, numUnschedulable := 0, numFilteredOut := 0
          filterTimeUs := 0 }) := by
  have hempty := foldl_erase_all
    (fun t => sched.config.maxScheduledCus / sched.consumeWorkSenders.length ≤
      sched.inFlightTracker.cusInFlightPerThread.getD t 0)
    (List.range sched.consumeWorkSenders.length)
    (ThreadSet.any sched.consumeWorkSenders.length)
    (fun t ht => hcap t (List.mem_range.mp ht))
  have hrange : (List.range sched.consumeWorkSenders.length).toFinset =
      Finset.range sched.consumeWorkSenders.length := by
    ext x; simp
  rw [hrange] at hempty
  have hempty2 : (List.range sched.consumeWorkSenders.length).foldl
      (fun s t =>
        if sched.config.maxScheduledCus / sched.consumeWorkSenders.length ≤
            sched.inFlightTracker.cusInFlightPerThread.getD t 0
        then s.erase t else s)
      (Finset.range sched.consumeWorkSenders.length) =
      Finset.range sched.consumeWorkSenders.length \
        Finset.range sched.consumeWorkSenders.length := hempty
  simp only [schedule, h0, if_false, ThreadSet.any, hempty2, Finset.sdiff_self]
  simp

/-- C7 witness: the capped single-thread scheduler returns the zero
summary on a non-empty container. -/
theorem c7_zero_summary_witness :
    schedule exSchedCapped exContainerTwo constTrue noFilter =
      .ok (exSchedCapped, exContainerTwo,
        { numScheduled := 0, numUnschedulable := 0, numFilteredOut := 0
          filterTimeUs := 0 }) :=
  c7_zero_summary exSchedCapped exContainerTwo constTrue noFilter
    (by decide) (by decide)

/-- C1 (failing run): with one thread, `max_scheduled_cus = 10` (so
`max_cu_per_thread = 10`) and three disjoint transactions of cost 10
each, a single pass drives the thread's in-flight compute units to 30,
strictly beyond `max_cu_per_thread + one_transaction_cost = 20`: the
thread is removed from the schedulable set after the first dispatch yet
keeps receiving transactions, because `try_schedule_transaction` passes
`ThreadSet::any(num_threads)` instead of the schedulable set to
`try_lock_accounts`. -/
theorem c1_cu_cap_exceeded :
    (schedule exSchedTight exContainerThree constTrue noFilter).map
        (fun r => r.1.inFlightTracker.cusInFlightPerThread) = .ok [30] ∧
      (∀ p ∈ exContainerThree.states, p.2.cost = 10) ∧
      exSchedTight.config.maxScheduledCus /
          exSchedTight.consumeWorkSenders.length + 10 < 30 :=
  ⟨by rfl, by decide, by decide⟩

/-- C6: a non-empty batch flushed to a disconnected consume channel is
the fatal `DisconnectedSendChannel` error (also end to end through
`schedule`), and a disconnected finished-work channel makes
`try_receive_completed` and `receive_completed` return the fatal
`DisconnectedRecvChannel` error. -/
theorem c6_disconnected_channels :
    (∀ (sched : Sched) (batches : Batches) (t : Nat),
        sched.consumeWorkSenders.getD t none = none →
        (batches.ids.getD t []).isEmpty = false →
        sendBatch sched batches t =
          .error (.failed (.DisconnectedSendChannel "consume work sender"))) ∧
      (∀ (sched : Sched) (container : Container),
          sched.finishedConsumeWorkReceiver = none →
          tryReceiveCompleted sched container =
              .error (.failed (.DisconnectedRecvChannel "finished consume work")) ∧
            receiveCompleted sched container =
              .error (.failed (.DisconnectedRecvChannel "finished consume work"))) ∧
      schedule exSchedDisc exContainerTwo constTrue noFilter =
        .error (.failed (.DisconnectedSendChannel "consume work sender")) := by
  refine ⟨?_, ?_, by rfl⟩
  · intro sched batches t h1 h2
    simp at h1 h2
    simp [sendBatch, h2, h1]
  · intro sched container h
    constructor
    · simp [tryReceiveCompleted, h]
    · simp [receiveCompleted, receiveCompletedAux, tryReceiveCompleted, h]

/-- C6 witness: the disconnected single-thread scheduler rejects a
non-empty batch, and the scheduler without a finished-work channel fails
to receive. -/
theorem c6_disconnected_channels_witness :
    sendBatch exSchedDisc exBatchesOne 0 =
        .error (.failed (.DisconnectedSendChannel "consume work sender")) ∧
      receiveCompleted exSchedNoRecv exContainerTwo =
        .error (.failed (.DisconnectedRecvChannel "finished consume work")) :=
  ⟨c6_disconnected_channels.1 exSchedDisc exBatchesOne 0 (by rfl) (by rfl),
    (c6_disconnected_channels.2.1 exSchedNoRecv exContainerTwo (by rfl)).2⟩

/-! The completion walk refines the spec's membership walk. -/

theorem fst_le_of_mem_enumFrom {α : Type} :
    ∀ {l : List α} {n : Nat} {p : Nat × α}, p ∈ List.enumFrom n l → n ≤ p.1 := by
  intro l
  induction l with
  | nil => intro n p h; cases h
  | cons x xs ih =>
    intro n p h
    simp only [List.enumFrom, List.mem_cons] at h
    rcases h with h | h
    · subst h; exact Nat.le_refl n
    · exact Nat.le_of_succ_le (ih h)

theorem foldl_retryStep_congr {r1 r2 : List Nat} :
    ∀ (l : List (Nat × TransactionId × Tx × Nat)) (c : Container),
      (∀ p ∈ l, (p.1 ∈ r1 ↔ p.1 ∈ r2)) →
      l.foldl (retryStep r1) c = l.foldl (retryStep r2) c := by
  intro l
  induction l with
  | nil => intro c _; rfl
  | cons x xs ih =>
    intro c hag
    simp only [List.foldl_cons]
    have hx := hag x (List.mem_cons_self x xs)
    have hstep : retryStep r1 c x = retryStep r2 c x := by
      simp only [retryStep]
      by_cases hx1 : x.1 ∈ r1
      · rw [if_pos hx1, if_pos (hx.mp hx1)]
      · rw [if_neg hx1, if_neg (fun h => hx1 (hx.mpr h))]
    rw [hstep]
    exact ih _ fun p hp => hag p (List.mem_cons_of_mem x hp)

theorem processRetryable_enumFrom :
    ∀ (l : List (TransactionId × Tx × Nat)) (n : Nat) (retryable : List Nat)
      (c : Container),
      retryable.Pairwise (· < ·) →
      (∀ i ∈ retryable, n ≤ i) →
      processRetryable c (List.enumFrom n l) retryable =
        (List.enumFrom n l).foldl (retryStep retryable) c := by
  intro l
  induction l with
  | nil => intro n r c _ _; rfl
  | cons x xs ih =>
    intro n retryable c hpw hge
    rcases x with ⟨id, tx, age⟩
    cases retryable with
    | nil =>
      simp only [List.enumFrom, processRetryable, List.foldl_cons]
      have hhead : retryStep [] c (n, id, tx, age) = c.removeById id := by
        simp [retryStep]
      rw [hhead]
      exact ih (n + 1) [] _ List.Pairwise.nil
        (fun i hi => absurd hi (List.not_mem_nil i))
    | cons rIdx rRest =>
      by_cases hr : rIdx = n
      · subst hr
        simp only [List.enumFrom, processRetryable, eq_self_iff_true, if_true,
          List.foldl_cons]
        have hhead : retryStep (rIdx :: rRest) c (rIdx, id, tx, age) =
            c.retryTransaction id ⟨tx, age⟩ := by
          simp [retryStep]
        rw [hhead]
        have hpw' := List.pairwise_cons.mp hpw
        have h1 := ih (rIdx + 1) rRest (c.retryTransaction id ⟨tx, age⟩)
          hpw'.2 (fun i hi => hpw'.1 i hi)
        rw [h1]
        exact (foldl_retryStep_congr _ _ fun p hp => by
          have hple := fst_le_of_mem_enumFrom hp
          simp only [List.mem_cons]
          constructor
          · rintro (h | h)
            · omega
            · exact h
          · exact fun h => Or.inr h).symm
      · simp only [List.enumFrom, processRetryable, List.foldl_cons]
        rw [if_neg hr]
        have hge' : ∀ i ∈ rIdx :: rRest, n + 1 ≤ i := by
          intro i hi
          rcases List.mem_cons.mp hi with h | h
          · subst h
            have := hge i (List.mem_cons_self _ _)
            omega
          · have h1 := (List.pairwise_cons.mp hpw).1 i h
            have h2 := hge rIdx (List.mem_cons_self _ _)
            omega
        have hhead : retryStep (rIdx :: rRest) c (n, id, tx, age) =
            c.removeById id := by
          simp only [retryStep]
          rw [if_neg]
          intro hmem
          exact absurd (hge' n hmem) (by omega)
        rw [hhead]
        exact ih (n + 1) (rIdx :: rRest) (c.removeById id) hpw hge'

theorem processRetryable_eq_specWalk (c : Container) (ids : List TransactionId)
    (txs : List Tx) (ages : List Nat) (retryable : List Nat)
    (h : retryable.Pairwise (· < ·)) :
    processRetryable c ((zip3 ids txs ages).enum) retryable =
      completionSpecWalk c ids txs ages retryable :=
  processRetryable_enumFrom (zip3 ids txs ages) 0 retryable c h
    (fun i _ => Nat.zero_le i)

theorem completeBatch_receiver {sched sched' : Sched} {bid : Nat}
    {txs : List Tx} (h : completeBatch sched bid txs = .ok sched') :
    sched'.finishedConsumeWorkReceiver = sched.finishedConsumeWorkReceiver := by
  simp only [completeBatch] at h
  split at h
  next => exact Except.noConfusion h
  next t tr' heq => cases h; rfl

theorem tryReceiveCompleted_batch
    (sched : Sched) (container : Container) (fw : FinishedConsumeWork)
    (rest : List FinishedConsumeWork) (p : ThreadId × InFlightTracker)
    (hq : sched.finishedConsumeWorkReceiver = some (fw :: rest))
    (hcb : sched.inFlightTracker.completeBatch fw.work.batchId = some p)
    (hsorted : fw.retryableIndexes.Pairwise (· < ·)) :
    tryReceiveCompleted sched container =
      .ok ((fw.work.ids.length, fw.retryableIndexes.length),
        { sched with
            finishedConsumeWorkReceiver := some rest
            inFlightTracker := p.2
            accountLocks :=
              fw.work.transactions.foldl
                (fun al tx =>
                  al.unlockAccounts (writeAccountLocks tx) (readAccountLocks tx)
                    p.1)
                sched.accountLocks },
        completionSpecWalk container fw.work.ids fw.work.transactions
          fw.work.maxAges fw.retryableIndexes) := by
  obtain ⟨thr, tr'⟩ := p
  have hcb' :
      ({ sched with finishedConsumeWorkReceiver := some rest } :
        Sched).inFlightTracker.completeBatch fw.work.batchId = some (thr, tr') :=
    hcb
  simp only [tryReceiveCompleted, hq, completeBatch, hcb']
  rw [processRetryable_eq_specWalk container _ _ _ _ hsorted]

theorem receiveCompletedAux_totals :
    ∀ (q : List FinishedConsumeWork) (fuel tot totr : Nat) (sched : Sched)
      (container : Container) (res : (Nat × Nat) × Sched × Container),
      sched.finishedConsumeWorkReceiver = some q →
      (∀ fw ∈ q, fw.work.ids ≠ []) →
      q.length < fuel →
      receiveCompletedAux fuel tot totr sched container = .ok res →
      res.1.1 = tot + (q.map fun fw => fw.work.ids.length).sum ∧
        res.1.2 = totr + (q.map fun fw => fw.retryableIndexes.length).sum := by
  intro q
  induction q with
  | nil =>
    intro fuel tot totr sched container res hq hne hlt hrun
    cases fuel with
    | zero => omega
    | succ f =>
      simp only [receiveCompletedAux, tryReceiveCompleted, hq,
        eq_self_iff_true, if_true] at hrun
      cases hrun
      constructor <;> simp
  | cons fw q ih =>
    intro fuel tot totr sched container res hq hne hlt hrun
    cases fuel with
    | zero => simp only [List.length_cons] at hlt; omega
    | succ f =>
      cases hcb : completeBatch { sched with finishedConsumeWorkReceiver := some q }
          fw.work.batchId fw.work.transactions with
      | error e =>
        simp only [receiveCompletedAux, tryReceiveCompleted, hq, hcb] at hrun
        exact Except.noConfusion hrun
      | ok sched2 =>
        have hne0 : fw.work.ids.length ≠ 0 := by
          intro h
          exact hne fw (List.mem_cons_self _ _) (List.length_eq_zero.mp h)
        simp only [receiveCompletedAux, tryReceiveCompleted, hq, hcb] at hrun
        rw [if_neg hne0] at hrun
        have hrecv2 : sched2.finishedConsumeWorkReceiver = some q :=
          completeBatch_receiver hcb
        have hih := ih f (tot + fw.work.ids.length)
          (totr + fw.retryableIndexes.length) sched2 _ res hrecv2
          (fun w hw => hne w (List.mem_cons_of_mem _ hw))
          (by simp only [List.length_cons] at hlt; omega) hrun
        refine ⟨?_, ?_⟩ <;>
          simp only [hih.1, hih.2, List.map_cons, List.sum_cons] <;> omega

/-- C5: for a finished batch whose retryable indexes are sorted ascending
within range, `try_receive_completed` retries exactly the ids at those
positions with their payloads and ages, removes every other id, and
returns the batch's transaction and retryable counts; `receive_completed`
returns totals equal to the sums of those counts over all drained
batches. -/
theorem c5_receive_completed :
    (∀ (sched : Sched) (container : Container) (fw : FinishedConsumeWork)
        (rest : List FinishedConsumeWork) (p : ThreadId × InFlightTracker),
        sched.finishedConsumeWorkReceiver = some (fw :: rest) →
        sched.inFlightTracker.completeBatch fw.work.batchId = some p →
        fw.retryableIndexes.Pairwise (· < ·) →
        (∀ i ∈ fw.retryableIndexes, i < fw.work.ids.length) →
        tryReceiveCompleted sched container =
          .ok ((fw.work.ids.length, fw.retryableIndexes.length),
            { sched with
                finishedConsumeWorkReceiver := some rest
                inFlightTracker := p.2
                accountLocks :=
                  fw.work.transactions.foldl
                    (fun al tx =>
                      al.unlockAccounts (writeAccountLocks tx)
                        (readAccountLocks tx) p.1)
                    sched.accountLocks },
            completionSpecWalk container fw.work.ids fw.work.transactions
              fw.work.maxAges fw.retryableIndexes)) ∧
      ∀ (sched : Sched) (container : Container)
        (q : List FinishedConsumeWork) (res : (Nat × Nat) × Sched × Container),
        sched.finishedConsumeWorkReceiver = some q →
        (∀ fw ∈ q, fw.work.ids ≠ []) →
        receiveCompleted sched container = .ok res →
        res.1.1 = (q.map fun fw => fw.work.ids.length).sum ∧
          res.1.2 = (q.map fun fw => fw.retryableIndexes.length).sum := by
  constructor
  · intro sched container fw rest p hq hcb hs _
    exact tryReceiveCompleted_batch sched container fw rest p hq hcb hs
  · intro sched container q res hq hne hrun
    simp only [receiveCompleted] at hrun
    have h := receiveCompletedAux_totals q
      ((sched.finishedConsumeWorkReceiver.getD []).length + 1) 0 0 sched
      container res hq hne (by rw [hq]; exact Nat.lt_succ_self q.length) hrun
    simpa using h

/-- C5 witness: draining the single finished batch of three transactions
with retryable positions 0 and 2 reports counts (3, 2), both through
`try_receive_completed` and through the `receive_completed` totals. -/
theorem c5_receive_completed_witness :
    (tryReceiveCompleted exRcSched exRcContainer).map (fun r => r.1) =
        .ok (3, 2) ∧
      ((receiveCompleted exRcSched exRcContainer).toOption.map (·.1)).getD
          (0, 0) = (3, 2) := by
  have h1 := c5_receive_completed.1 exRcSched exRcContainer exRcWork []
    (0, ⟨[0], [0], 1, []⟩) rfl rfl (by decide) (by decide)
  obtain ⟨res, hres⟩ : ∃ r, receiveCompleted exRcSched exRcContainer = .ok r :=
    ⟨_, rfl⟩
  have h2 := c5_receive_completed.2 exRcSched exRcContainer [exRcWork] res rfl
    (by
      intro fw hfw
      simp only [List.mem_singleton] at hfw
      subst hfw
      simp [exRcWork])
    hres
  refine ⟨?_, ?_⟩
  · rw [h1]; rfl
  · rw [hres]
    have ha : res.1.1 = 3 := by simpa [exRcWork] using h2.1
    have hb : res.1.2 = 2 := by simpa [exRcWork] using h2.2
    show res.1 = (3, 2)
    exact Prod.ext ha hb

/-! The chunked prefill refines the spec's one-at-a-time walk. -/

theorem getAccess_eq_specAccess (ttl : SanitizedTransactionTTL) :
    getTransactionAccountAccess ttl = specAccess ttl := by
  simp only [getTransactionAccountAccess, specAccess]
  apply List.map_congr_left
  intro p _
  by_cases h : ttl.transaction.isWritable p.1
  · rw [if_pos h, if_pos h]
  · rw [if_neg h, if_neg h]

theorem popUpTo_eq :
    ∀ (n : Nat) (qu : List TransactionPriorityId)
      (st : List (TransactionId × TransactionState)),
      popUpTo n ⟨qu, st⟩ = (qu.take n, ⟨qu.drop n, st⟩) := by
  intro n
  induction n with
  | zero => intro qu st; rfl
  | succ n ih =>
    intro qu st
    cases qu with
    | nil => rfl
    | cons h t =>
      simp only [popUpTo, Container.pop]
      rw [ih]
      rfl

theorem prefillSpec_emptyQueue (p : Tx → Bool) (c : Container) (g : PrioGraph)
    (m nf : Nat) (h : c.queue = []) : prefillSpec p c g m nf = .ok (c, g, nf) := by
  cases m with
  | zero => rfl
  | succ m => simp only [prefillSpec, Container.pop, h]

theorem alGet_alErase_ne {κ α : Type} [DecidableEq κ]
    (l : List (κ × α)) (k k' : κ) (h : k ≠ k') :
    alGet (alErase l k') k = alGet l k := by
  induction l with
  | nil => rfl
  | cons x xs ih =>
    by_cases hx : x.1 = k'
    · have h1 : alErase (x :: xs) k' = alErase xs k' := by
        simp [alErase, List.filter_cons, hx]
      have hxk : ¬(decide (x.1 = k) = true) := by
        simp only [decide_eq_true_eq]
        rw [hx]
        exact fun hc => h hc.symm
      have hf2 : List.find? (fun p => decide (p.1 = k)) (x :: xs) =
          List.find? (fun p => decide (p.1 = k)) xs :=
        List.find?_cons_of_neg xs hxk
      rw [h1, ih]
      simp only [alGet]
      rw [hf2]
    · have h1 : alErase (x :: xs) k' = x :: alErase xs k' := by
        simp [alErase, List.filter_cons, hx]
      rw [h1]
      by_cases hxk : x.1 = k
      · have hf1 : List.find? (fun p => decide (p.1 = k)) (x :: alErase xs k') =
            some x :=
          List.find?_cons_of_pos (alErase xs k') (by simpa using hxk)
        have hf2 : List.find? (fun p => decide (p.1 = k)) (x :: xs) = some x :=
          List.find?_cons_of_pos xs (by simpa using hxk)
        simp only [alGet]
        rw [hf1, hf2]
      · have hf1 : List.find? (fun p => decide (p.1 = k)) (x :: alErase xs k') =
            List.find? (fun p => decide (p.1 = k)) (alErase xs k') :=
          List.find?_cons_of_neg (alErase xs k') (by simpa using hxk)
        have hf2 : List.find? (fun p => decide (p.1 = k)) (x :: xs) =
            List.find? (fun p => decide (p.1 = k)) xs :=
          List.find?_cons_of_neg xs (by simpa using hxk)
        simp only [alGet]
        rw [hf1, hf2]
        exact ih

theorem gatherTxs_congr :
    ∀ (ids : List TransactionPriorityId) (c c2 : Container),
      (∀ tp ∈ ids, c.getTransactionTTL tp.id = c2.getTransactionTTL tp.id) →
      gatherTxs c ids = gatherTxs c2 ids := by
  intro ids
  induction ids with
  | nil => intro c c2 _; rfl
  | cons id rest ih =>
    intro c c2 hag
    simp only [gatherTxs]
    rw [hag id (List.mem_cons_self _ _),
      ih c c2 fun tp h => hag tp (List.mem_cons_of_mem _ h)]

theorem gatherTxs_length :
    ∀ {ids : List TransactionPriorityId} {c : Container} {txs : List Tx},
      gatherTxs c ids = some txs → txs.length = ids.length := by
  intro ids
  induction ids with
  | nil =>
    intro c txs h
    cases h
    rfl
  | cons id rest ih =>
    intro c txs h
    simp only [gatherTxs] at h
    cases httl : Container.getTransactionTTL c id.id with
    | none =>
      rw [httl] at h
      exact Option.noConfusion h
    | some ttl =>
      simp only [httl] at h
      cases hg : gatherTxs c rest with
      | none =>
        rw [hg] at h
        exact Option.noConfusion h
      | some t' =>
        rw [hg] at h
        cases h
        simp only [List.length_cons, ih hg]

theorem padTrue_self (bs : List Bool) : padTrue bs bs.length = bs := by
  simp [padTrue]

theorem prefill_chunkWalk (p : Tx → Bool) :
    ∀ (ids rest : List TransactionPriorityId)
      (st : List (TransactionId × TransactionState)) (g : PrioGraph)
      (nf m : Nat),
      ((ids ++ rest).map (·.id)).Nodup →
      (∀ tp ∈ ids ++ rest,
        ((alGet st tp.id).bind TransactionState.transactionTTL).isSome) →
      ∃ txs r,
        gatherTxs ⟨rest, st⟩ ids = some txs ∧
        txs.length = ids.length ∧
        applyFilterResults ⟨rest, st⟩ g (ids.zip (txs.map p)) nf = .ok r ∧
        r.1.queue = rest ∧
        containerWF r.1 ∧
        prefillSpec p ⟨ids ++ rest, st⟩ g (ids.length + m) nf =
          prefillSpec p r.1 r.2.1 m r.2.2 := by
  intro ids
  induction ids with
  | nil =>
    intro rest st g nf m hnd httl
    refine ⟨[], (⟨rest, st⟩, g, nf), rfl, rfl, rfl, rfl, ⟨?_, ?_⟩, ?_⟩
    · simpa using hnd
    · intro tp htp
      exact httl tp (by simpa using htp)
    · simp only [List.nil_append, List.length_nil, Nat.zero_add]
  | cons id ids ih =>
    intro rest st g nf m hnd httl
    have hnd0 := hnd
    simp only [List.cons_append, List.map_cons, List.nodup_cons] at hnd0
    obtain ⟨hnotin, hnd'⟩ := hnd0
    have httl0 := httl id (by simp)
    obtain ⟨ttl, httlid⟩ := Option.isSome_iff_exists.mp httl0
    have httl' : ∀ tp ∈ ids ++ rest,
        ((alGet st tp.id).bind TransactionState.transactionTTL).isSome := by
      intro tp htp
      refine httl tp ?_
      simp only [List.cons_append, List.mem_cons]
      exact Or.inr htp
    have hne : ∀ tp ∈ ids ++ rest, tp.id ≠ id.id := by
      intro tp htp hc
      exact hnotin (hc ▸ List.mem_map_of_mem (·.id) htp)
    have hbudget : (id :: ids).length + m = (ids.length + m) + 1 := by
      simp only [List.length_cons]
      omega
    have httlid2 : Container.getTransactionTTL ⟨rest, st⟩ id.id = some ttl :=
      httlid
    by_cases hp : p ttl.transaction
    · obtain ⟨txs', r, hg, hlen, happ, hq, hwf, hspec⟩ :=
        ih rest st (g.insertTransaction id (specAccess ttl)) nf m hnd' httl'
      refine ⟨ttl.transaction :: txs', r, ?_, ?_, ?_, hq, hwf, ?_⟩
      · simp only [gatherTxs, httlid2, hg, Option.map_some']
      · simp only [List.length_cons, hlen]
      · simp only [List.map_cons, List.zip_cons_cons, applyFilterResults]
        rw [if_pos hp]
        simp only [httlid2]
        rw [getAccess_eq_specAccess]
        exact happ
      · rw [hbudget]
        have httlid3 :
            Container.getTransactionTTL ⟨ids ++ rest, st⟩ id.id = some ttl :=
          httlid
        simp only [List.cons_append, prefillSpec, Container.pop, httlid3]
        rw [if_pos hp]
        exact hspec
    · obtain ⟨txs', r, hg, hlen, happ, hq, hwf, hspec⟩ :=
        ih rest (alErase st id.id) g (nf + 1) m hnd'
          (by
            intro tp htp
            rw [alGet_alErase_ne st tp.id id.id (hne tp htp)]
            exact httl' tp htp)
      have hgather : gatherTxs ⟨rest, st⟩ ids = some txs' := by
        rw [gatherTxs_congr ids ⟨rest, st⟩ ⟨rest, alErase st id.id⟩ ?_]
        · exact hg
        · intro tp htp
          show (alGet st tp.id).bind TransactionState.transactionTTL =
            (alGet (alErase st id.id) tp.id).bind TransactionState.transactionTTL
          rw [alGet_alErase_ne st tp.id id.id
            (hne tp (List.mem_append_left rest htp))]
      refine ⟨ttl.transaction :: txs', r, ?_, ?_, ?_, hq, hwf, ?_⟩
      · simp only [gatherTxs, httlid2, hgather, Option.map_some']
      · simp only [List.length_cons, hlen]
      · simp only [List.map_cons, List.zip_cons_cons, applyFilterResults]
        rw [if_neg hp]
        exact happ
      · rw [hbudget]
        have httlid3 :
            Container.getTransactionTTL ⟨ids ++ rest, st⟩ id.id = some ttl :=
          httlid
        simp only [List.cons_append, prefillSpec, Container.pop, httlid3]
        rw [if_neg hp]
        exact hspec

theorem chunkedPopsAux_refines (p : Tx → Bool) :
    ∀ (fuel : Nat) (c : Container) (g : PrioGraph) (wb nf : Nat),
      wb ≤ fuel → containerWF c →
      (chunkedPopsAux (fun txs => txs.map p) fuel c g wb nf).map
          (fun r => (r.1, r.2.1, r.2.2.2)) =
        prefillSpec p c g wb nf := by
  intro fuel
  induction fuel with
  | zero =>
    intro c g wb nf hle hwf
    have h0 : wb = 0 := Nat.le_zero.mp hle
    subst h0
    rfl
  | succ f ih =>
    intro c g wb nf hle hwf
    by_cases hwb : wb = 0
    · subst hwb
      rfl
    · obtain ⟨qu, st⟩ := c
      have hpop := popUpTo_eq (min wb 128) qu st
      have hqu : qu.take (min wb 128) ++ qu.drop (min wb 128) = qu :=
        List.take_append_drop _ _
      obtain ⟨txs, r, hg, hlen, happ, hq, hwf', hspec⟩ :=
        prefill_chunkWalk p (qu.take (min wb 128)) (qu.drop (min wb 128)) st g
          nf (wb - (qu.take (min wb 128)).length)
          (by rw [hqu]; exact hwf.1)
          (by
            intro tp htp
            rw [hqu] at htp
            exact hwf.2 tp htp)
      have harith :
          (qu.take (min wb 128)).length +
            (wb - (qu.take (min wb 128)).length) = wb := by
        have := List.length_take (min wb 128) qu
        omega
      have hspec' :
          prefillSpec p ⟨qu, st⟩ g wb nf =
            prefillSpec p r.1 r.2.1 (wb - (qu.take (min wb 128)).length)
              r.2.2 := by
        rw [← hspec, harith, hqu]
      have hpt : padTrue (txs.map p) (qu.take (min wb 128)).length =
          txs.map p := by
        rw [← hlen, ← List.length_map txs p]
        exact padTrue_self (txs.map p)
      have hchunk :
          chunkedPopsAux (fun txs => txs.map p) (f + 1) ⟨qu, st⟩ g wb nf =
            if (qu.take (min wb 128)).length ≠ min wb 128 then
              .ok (r.1, r.2.1, wb - min wb 128, r.2.2)
            else
              chunkedPopsAux (fun txs => txs.map p) f r.1 r.2.1
                (wb - min wb 128) r.2.2 := by
        simp only [chunkedPopsAux]
        rw [if_neg hwb]
        simp only [hpop, hg, hpt, happ]
      by_cases hfull : (qu.take (min wb 128)).length = min wb 128
      · rw [hchunk, if_neg (fun hc => hc hfull)]
        rw [ih r.1 r.2.1 (wb - min wb 128) r.2.2 (by omega) hwf']
        rw [hspec', hfull]
      · rw [hchunk, if_pos hfull]
        have hdrop : qu.drop (min wb 128) = [] := by
          apply List.drop_eq_nil_of_le
          have := List.length_take (min wb 128) qu
          omega
        have hqnil : r.1.queue = [] := by rw [hq, hdrop]
        rw [hspec', prefillSpec_emptyQueue p r.1 r.2.1 _ r.2.2 hqnil]
        rfl

theorem chunkedPopsAux_filter_congr (f f' : List Tx → List Bool)
    (hag : ∀ l : List Tx, l.length ≤ 128 → f l = f' l) :
    ∀ (fuel : Nat) (c : Container) (g : PrioGraph) (wb nf : Nat),
      chunkedPopsAux f fuel c g wb nf = chunkedPopsAux f' fuel c g wb nf := by
  intro fuel
  induction fuel with
  | zero => intro c g wb nf; rfl
  | succ fl ih =>
    intro c g wb nf
    simp only [chunkedPopsAux]
    by_cases hwb : wb = 0
    · rw [if_pos hwb, if_pos hwb]
    · rw [if_neg hwb, if_neg hwb]
      cases hg : gatherTxs (popUpTo (min wb 128) c).2 (popUpTo (min wb 128) c).1
        with
      | none => simp only [hg]
      | some txs =>
        simp only [hg]
        have hlen : txs.length ≤ 128 := by
          have h1 := gatherTxs_length hg
          obtain ⟨qu, st⟩ := c
          rw [popUpTo_eq] at h1
          have h2 := List.length_take (min wb 128) qu
          simp only at h1
          omega
        rw [hag txs hlen]
        cases ha : applyFilterResults (popUpTo (min wb 128) c).2 g
            ((popUpTo (min wb 128) c).1.zip
              (padTrue (f' txs) (popUpTo (min wb 128) c).1.length)) nf with
        | error e => simp only [ha]
        | ok r =>
          simp only [ha]
          by_cases hfull : (popUpTo (min wb 128) c).1.length ≠ min wb 128
          · rw [if_pos hfull, if_pos hfull]
          · rw [if_neg hfull, if_neg hfull]
            exact ih r.1 r.2.1 (wb - min wb 128) r.2.2

/-- C9: the pre-graph filter is consulted only on chunks of at most 128
transactions (two filters agreeing on all such chunks drive
`chunked_pops` identically), an empty window budget pops nothing, and for
a pointwise filter the chunked prefill equals the spec's one-at-a-time
walk: while the budget lasts, each popped transaction the filter rejects
is removed from the container and counted filtered-out, and each accepted
one enters the priority graph with write access at its writable indices
and read access otherwise. -/
theorem c9_prefill_filter :
    (∀ ttl : SanitizedTransactionTTL,
        getTransactionAccountAccess ttl = specAccess ttl) ∧
      (∀ f f' : List Tx → List Bool,
        (∀ l : List Tx, l.length ≤ 128 → f l = f' l) →
        ∀ (c : Container) (g : PrioGraph) (wb nf : Nat),
          chunkedPops f c g wb nf = chunkedPops f' c g wb nf) ∧
      (∀ (f : List Tx → List Bool) (c : Container) (g : PrioGraph) (nf : Nat),
        chunkedPops f c g 0 nf = .ok (c, g, 0, nf)) ∧
      ∀ (p : Tx → Bool) (c : Container) (g : PrioGraph) (wb nf : Nat),
        containerWF c →
        (chunkedPops (fun txs => txs.map p) c g wb nf).map
            (fun r => (r.1, r.2.1, r.2.2.2)) =
          prefillSpec p c g wb nf := by
  refine ⟨getAccess_eq_specAccess, ?_, ?_, ?_⟩
  · intro f f' hag c g wb nf
    exact chunkedPopsAux_filter_congr f f' hag wb c g wb nf
  · intro f c g nf
    rfl
  · intro p c g wb nf hwf
    exact chunkedPopsAux_refines p wb c g wb nf (Nat.le_refl wb) hwf

/-- C9 witness: on the three-transaction container with a pointwise
filter rejecting the account-101 transaction, the chunked prefill agrees
with the spec's walk. -/
theorem c9_prefill_filter_witness :
    (chunkedPops
          (fun txs => txs.map fun tx => decide (tx.accountKeys ≠ [101]))
          exContainerThree PrioGraph.new 10 0).map
        (fun r => (r.1, r.2.1, r.2.2.2)) =
      prefillSpec (fun tx => decide (tx.accountKeys ≠ [101]))
        exContainerThree PrioGraph.new 10 0 :=
  c9_prefill_filter.2.2.2 (fun tx => decide (tx.accountKeys ≠ [101]))
    exContainerThree PrioGraph.new 10 0 ⟨by decide, by decide⟩

end Scheduler
